import Mathlib

/-!
Verification of the okvis2 estimation core against its specification.

The development shallowly embeds, in exact real arithmetic:
* the relative-pose residual block of RelativePoseError.cpp
  (information handling via an Eigen-style LLT Cholesky decomposition,
  and the residual path of EvaluateWithMinimalJacobians);
* the loop-closure correspondence builder of
  LoopclosureNoncentralAbsoluteAdapter.cpp;
* the session container Component (load), whose implementation is not part
  of the sources, modelled from the specification.
-/

open Matrix

namespace Okvis

/-! ## Kinematics: poses as position plus quaternion.

Modelled from the spec: the okvis kinematics Transformation class is not in
the sources (only its callers are).  The spec describes a manifold pose as a
position 3-vector plus a unit quaternion, with composition and inverse of
rigid transforms; quaternions must be renormalized before use. -/

/-- The pure quaternion with imaginary part a given 3-vector. -/
def quatVec (v : Fin 3 → ℝ) : Quaternion ℝ := ⟨0, v 0, v 1, v 2⟩

/-- The imaginary part of a quaternion as a 3-vector
(the head of the Eigen coeffs order x, y, z, w). -/
def quatIm (p : Quaternion ℝ) : Fin 3 → ℝ := ![p.imI, p.imJ, p.imK]

/-- Rotation action of a (unit) quaternion on a 3-vector: the imaginary part
of q v q-star.  For a unit quaternion this is the rotation matrix action
used by the source through C() and quaternion-vector products. -/
def rotAct (q : Quaternion ℝ) (v : Fin 3 → ℝ) : Fin 3 → ℝ :=
  quatIm (q * quatVec v * star q)

/-- Modelled from the spec: a pose, i.e. position plus quaternion
(okvis kinematics Transformation). -/
structure Transf where
  r : Fin 3 → ℝ
  q : Quaternion ℝ

/-- Modelled from the spec: composition of rigid transforms. -/
def Transf.comp (T1 T2 : Transf) : Transf :=
  ⟨fun i => T1.r i + rotAct T1.q T2.r i, T1.q * T2.q⟩

/-- Modelled from the spec: inverse of a rigid transform with unit
quaternion. -/
def Transf.inv (T : Transf) : Transf :=
  ⟨fun i => -(rotAct (star T.q) T.r i), star T.q⟩

/-- The identity pose. -/
noncomputable def idTransf : Transf := ⟨0, 1⟩

/-- Eigen Quaterniond normalized(): divide by the norm unless the squared
norm is not positive, in which case the quaternion is returned unchanged
(the guard in Eigen MatrixBase normalized). -/
noncomputable def quatNormalized (q : Quaternion ℝ) : Quaternion ℝ :=
  if 0 < Quaternion.normSq q then (Real.sqrt (Quaternion.normSq q))⁻¹ • q else q

/-- The quaternion packed in a 7-scalar ambient pose parameter block,
Eigen order: parameters 3, 4, 5 are x, y, z and parameter 6 is w. -/
def quatOfParams (p : Fin 7 → ℝ) : Quaternion ℝ := ⟨p 6, p 3, p 4, p 5⟩

/-- The pose represented by a 7-scalar parameter block, with the quaternion
renormalized as in the source (Quaterniond(...).normalized()). -/
noncomputable def poseOfParams (p : Fin 7 → ℝ) : Transf :=
  ⟨![p 0, p 1, p 2], quatNormalized (quatOfParams p)⟩

/-- Equality of two poses as rigid transforms: equal translations and
rotations acting identically on every vector (identity rotation difference
and zero translation difference). -/
def SameRigid (T1 T2 : Transf) : Prop :=
  T1.r = T2.r ∧ ∀ v, rotAct T1.q v = rotAct T2.q v

/-! ## Cholesky decomposition (Eigen LLT model).

Exact-real model of the Eigen LLT lower-triangular Cholesky decomposition
used by RelativePoseError::setInformation, in the equivalent
Schur-complement formulation: the pivot tested at each step and the factor
entries produced on success are the same real numbers Eigen's unblocked
in-place algorithm computes, and failure is reported (flag false) exactly
when a pivot is not positive, which is when Eigen reports NumericalIssue.
On failure the remaining block is returned as is (Eigen leaves the
not-yet-processed entries of its in-place matrix untouched; the content of
matrixL() after a failure is unspecified garbage either way). -/

/-- One Cholesky factorization step plus recursion: returns the candidate
lower-triangular factor and a success flag. -/
noncomputable def chol : (n : ℕ) → Matrix (Fin n) (Fin n) ℝ →
    Matrix (Fin n) (Fin n) ℝ × Bool
  | 0, M => (M, true)
  | n + 1, M =>
    if M 0 0 ≤ 0 then (M, false)
    else
      let l : ℝ := Real.sqrt (M 0 0)
      let c : Fin n → ℝ := fun i => M i.succ 0 / l
      let p := chol n (Matrix.of fun i j => M i.succ j.succ - c i * c j)
      (Matrix.of fun i j =>
        Fin.cases (Fin.cases l (fun _ => (0 : ℝ)) j)
          (fun i2 => Fin.cases (c i2) (fun j2 => p.1 i2 j2) j) i,
       p.2)

/-! ## RelativePoseError (RelativePoseError.cpp). -/

/-- The state of a RelativePoseError term: the measured relative transform
and the information, covariance and square-root information matrices. -/
structure RelativePoseErrorState where
  T_AB : Transf
  information : Matrix (Fin 6) (Fin 6) ℝ
  covariance : Matrix (Fin 6) (Fin 6) ℝ
  squareRootInformation : Matrix (Fin 6) (Fin 6) ℝ

namespace RelativePoseError

/-- RelativePoseError::setInformation: store the information matrix, its
inverse as covariance, and the transpose of the lower Cholesky factor as
square-root information.  The source never consults the decomposition's
success flag; the function is total. -/
noncomputable def setInformation (st : RelativePoseErrorState)
    (information : Matrix (Fin 6) (Fin 6) ℝ) : RelativePoseErrorState :=
  { st with
    information := information
    covariance := information⁻¹
    squareRootInformation := ((chol 6 information).1)ᵀ }

/-- Constructor from measurement and information matrix. -/
noncomputable def ofInformation (information : Matrix (Fin 6) (Fin 6) ℝ)
    (T_AB : Transf) : RelativePoseErrorState :=
  setInformation ⟨T_AB, 0, 0, 0⟩ information

/-- The block-diagonal information matrix built by the variance-based
constructor: inverse translation variance on the top-left 3x3 diagonal and
inverse rotation variance on the bottom-right 3x3 diagonal. -/
noncomputable def varianceInfo (translationVariance rotationVariance : ℝ) :
    Matrix (Fin 6) (Fin 6) ℝ :=
  Matrix.of fun i j =>
    if i = j then (if (i : ℕ) < 3 then 1 / translationVariance else 1 / rotationVariance)
    else 0

/-- Constructor from measurement and translation/rotation variances. -/
noncomputable def ofVariances (translationVariance rotationVariance : ℝ)
    (T_AB : Transf) : RelativePoseErrorState :=
  setInformation ⟨T_AB, 0, 0, 0⟩ (varianceInfo translationVariance rotationVariance)

/-- The 6-vector error of EvaluateWithMinimalJacobians: head is the
translation difference between the measured transform and the estimated
relative transform inverse(pose A) composed with pose B; tail is twice the
imaginary part of measured-quaternion times estimated-quaternion-inverse. -/
noncomputable def errorVector (T_AB_meas : Transf) (pA pB : Fin 7 → ℝ) :
    Fin 6 → ℝ :=
  Fin.append
    (fun i => T_AB_meas.r i - ((poseOfParams pA).inv.comp (poseOfParams pB)).r i)
    (fun i => 2 * quatIm (T_AB_meas.q *
      (((poseOfParams pA).inv.comp (poseOfParams pB)).q)⁻¹) i)

/-- The whitened residual written to the output array by
EvaluateWithMinimalJacobians: square-root information times the error
vector.  Jacobian computation only writes the separate optional Jacobian
outputs and does not affect the residual. -/
noncomputable def evaluateResidual (st : RelativePoseErrorState)
    (pA pB : Fin 7 → ℝ) : Fin 6 → ℝ :=
  st.squareRootInformation *ᵥ errorVector st.T_AB pA pB

end RelativePoseError

/-! ## Loop-closure correspondence builder
(LoopclosureNoncentralAbsoluteAdapter.cpp).

Inputs are modelled as data: the landmark table and the keypoint-to-landmark
association map as partial maps (lookup returning an Option, with the
std::map at() throwing modelled as an error), the rig as the list of
per-camera distortion types, and the query multi-frame as its id plus the
per-camera extrinsics, focal length and keypoint data (pixel size and the
result of getBackProjection). -/

/-- The distortion-model families of NCameraSystem::DistortionType. -/
inductive DistortionKind
  | Equidistant
  | RadialTangential
  | NoDistortion
  | RadialTangential8
  deriving DecidableEq

/-- Per-keypoint data read from the frame: the keypoint size (used as
standard deviation) and the back-projection result (none when
getBackProjection returns false). -/
structure KeypointData where
  size : ℝ
  backProjection : Option (Fin 3 → ℝ)

/-- Per-camera data read from the frame: extrinsics translation and
rotation (T_SC), the focal length focalLengthU of the camera geometry, and
the keypoints detected in this camera's image. -/
structure FrameCamera where
  T_SC_r : Fin 3 → ℝ
  T_SC_C : Matrix (Fin 3) (Fin 3) ℝ
  focalLengthU : ℝ
  keypoints : List KeypointData

/-- Junk camera used for an out-of-range camera access (undefined behaviour
in the source; never relevant under the claims' hypotheses). -/
noncomputable def defaultFrameCamera : FrameCamera := ⟨0, 0, 1, []⟩

/-- The query multi-frame: its id and the per-camera data. -/
structure MultiFrameData where
  id : ℕ
  cams : List FrameCamera

/-- One assembled 2D-3D correspondence. -/
structure CorrRecord where
  point : Fin 3 → ℝ
  bearing : Fin 3 → ℝ
  sigmaAngle : ℝ
  camIndex : ℕ
  keypointIndex : ℕ

/-- The parallel arrays filled by the adapter constructor. -/
structure AdapterState where
  camOffsets : List (Fin 3 → ℝ)
  camRotations : List (Matrix (Fin 3) (Fin 3) ℝ)
  points : List (Fin 3 → ℝ)
  bearingVectors : List (Fin 3 → ℝ)
  sigmaAngles : List ℝ
  camIndices : List ℕ
  keypointIndices : List ℕ

/-- The empty adapter state at the start of construction. -/
def emptyAdapterState : AdapterState := ⟨[], [], [], [], [], [], []⟩

/-- The fatal errors of the adapter constructor: the mixed-frame-types
assertion, the unsupported-distortion throw, and the out_of_range thrown by
the landmark-table at() lookup. -/
inductive AdapterError
  | mixedTypes
  | unsupportedType
  | missingLandmark
  deriving DecidableEq

/-- Squared Euclidean norm of a 3-vector. -/
def sqNorm3 (v : Fin 3 → ℝ) : ℝ := v 0 * v 0 + v 1 * v 1 + v 2 * v 2

/-- Eigen MatrixBase normalize(): divide by the norm, unless the squared
norm is not positive, in which case the vector is left unchanged. -/
noncomputable def normalize3 (v : Fin 3 → ℝ) : Fin 3 → ℝ :=
  if 0 < sqNorm3 v then fun i => v i / Real.sqrt (sqNorm3 v) else v

/-- The correspondence record stored for an accepted keypoint: the
dehomogenized landmark, the normalized bearing with the (1,0,0) fallback on
back-projection failure, the angular sigma from the keypoint size and the
focal length, and the camera and keypoint indices. -/
noncomputable def mkCorr (fu : ℝ) (im k : ℕ) (kp : KeypointData)
    (hp : Fin 4 → ℝ) : CorrRecord where
  point := fun i => hp i.castSucc / hp 3
  bearing := normalize3 (kp.backProjection.getD ![1, 0, 0])
  sigmaAngle := Real.sqrt 2 * (0.8 * kp.size / 12) * (0.8 * kp.size / 12) / (fu * fu)
  camIndex := im
  keypointIndex := k

/-- Push one correspondence onto the five parallel arrays. -/
def appendCorr (st : AdapterState) (c : CorrRecord) : AdapterState :=
  { st with
    points := st.points ++ [c.point]
    bearingVectors := st.bearingVectors ++ [c.bearing]
    sigmaAngles := st.sigmaAngles ++ [c.sigmaAngle]
    camIndices := st.camIndices ++ [c.camIndex]
    keypointIndices := st.keypointIndices ++ [c.keypointIndex] }

/-- The body of the per-keypoint loop: skip when no association exists,
skip the sentinel id 0, abort construction when the landmark table lookup
fails (at() throws), skip a landmark at infinity, and otherwise append the
correspondence. -/
noncomputable def processKeypoint (pts : ℕ → Option (Fin 4 → ℝ))
    (matchMap : ℕ × ℕ × ℕ → Option ℕ) (frameId : ℕ) (fu : ℝ) (im k : ℕ)
    (kp : KeypointData) (st : AdapterState) : Except AdapterError AdapterState :=
  match matchMap (frameId, im, k) with
  | none => .ok st
  | some lmId =>
    if lmId = 0 then .ok st
    else
      match pts lmId with
      | none => .error .missingLandmark
      | some hp =>
        if |hp 3| < 1e-8 then .ok st
        else .ok (appendCorr st (mkCorr fu im k kp hp))

/-- The per-keypoint loop over one camera's keypoints, with running
keypoint index. -/
noncomputable def processKeypoints (pts : ℕ → Option (Fin 4 → ℝ))
    (matchMap : ℕ × ℕ × ℕ → Option ℕ) (frameId : ℕ) (fu : ℝ) (im : ℕ) :
    ℕ → List KeypointData → AdapterState → Except AdapterError AdapterState
  | _, [], st => .ok st
  | k, kp :: rest, st =>
    (processKeypoint pts matchMap frameId fu im k kp st).bind
      (processKeypoints pts matchMap frameId fu im (k + 1) rest)

/-- The focal length selected by the switch over the (single) distortion
family: defined for the three supported pinhole families, and none for the
unsupported default branch. -/
def focalOf (dt : DistortionKind) (cam : FrameCamera) : Option ℝ :=
  match dt with
  | .RadialTangential => some cam.focalLengthU
  | .RadialTangential8 => some cam.focalLengthU
  | .Equidistant => some cam.focalLengthU
  | .NoDistortion => none

/-- The body of the per-camera loop: record the frozen extrinsics, resolve
the focal length (throwing on an unsupported distortion type), then process
this camera's keypoints. -/
noncomputable def processCamera (pts : ℕ → Option (Fin 4 → ℝ))
    (matchMap : ℕ × ℕ × ℕ → Option ℕ) (frameId : ℕ) (dt0 : DistortionKind)
    (frame : MultiFrameData) (st : AdapterState) (im : ℕ) :
    Except AdapterError AdapterState :=
  let cam := frame.cams.getD im defaultFrameCamera
  let st1 : AdapterState :=
    { st with
      camOffsets := st.camOffsets ++ [cam.T_SC_r]
      camRotations := st.camRotations ++ [cam.T_SC_C] }
  match focalOf dt0 cam with
  | none => .error .unsupportedType
  | some fu => processKeypoints pts matchMap frameId fu im 0 cam.keypoints st1

/-- The adapter constructor: check that all cameras share the first
camera's distortion family (fatal assertion otherwise, before any camera or
keypoint is processed), then run the per-camera loop over all cameras of
the rig. -/
noncomputable def constructAdapter (pts : ℕ → Option (Fin 4 → ℝ))
    (matchMap : ℕ × ℕ × ℕ → Option ℕ) (rig : List DistortionKind)
    (frame : MultiFrameData) : Except AdapterError AdapterState :=
  let dt0 := rig.getD 0 .NoDistortion
  if rig.all (fun d => decide (d = dt0)) then
    (List.range rig.length).foldlM
      (processCamera pts matchMap frame.id dt0 frame) emptyAdapterState
  else .error .mixedTypes

/-- getNumberCorrespondences: the size of the points array. -/
def getNumberCorrespondences (st : AdapterState) : ℕ := st.points.length

/-- getBearingVector accessor (out-of-range access is undefined in the
source; modelled with a junk default). -/
noncomputable def getBearingVector (st : AdapterState) (index : ℕ) : Fin 3 → ℝ :=
  st.bearingVectors.getD index 0

/-- getPoint accessor. -/
noncomputable def getPoint (st : AdapterState) (index : ℕ) : Fin 3 → ℝ :=
  st.points.getD index 0

/-- getCamOffset accessor: the offset of the camera of the indexed
correspondence, looked up through the stored camera index. -/
noncomputable def getCamOffset (st : AdapterState) (index : ℕ) : Fin 3 → ℝ :=
  st.camOffsets.getD (st.camIndices.getD index 0) 0

/-- getCamRotation accessor: the rotation of the camera of the indexed
correspondence, looked up through the stored camera index. -/
noncomputable def getCamRotation (st : AdapterState) (index : ℕ) :
    Matrix (Fin 3) (Fin 3) ℝ :=
  st.camRotations.getD (st.camIndices.getD index 0) 0

/-- getSigmaAngle accessor. -/
noncomputable def getSigmaAngle (st : AdapterState) (index : ℕ) : ℝ :=
  st.sigmaAngles.getD index 0

/-- Specification-side list of the correspondence records one camera's
keypoint loop appends, in order (treating a failed table lookup as
producing nothing; in non-aborting runs the lookup never fails). -/
noncomputable def kpRecords (pts : ℕ → Option (Fin 4 → ℝ))
    (matchMap : ℕ × ℕ × ℕ → Option ℕ) (frameId : ℕ) (fu : ℝ) (im : ℕ) :
    ℕ → List KeypointData → List CorrRecord
  | _, [] => []
  | k, kp :: rest =>
    (match matchMap (frameId, im, k) with
     | none => []
     | some lmId =>
       if lmId = 0 then []
       else
         match pts lmId with
         | none => []
         | some hp => if |hp 3| < 1e-8 then [] else [mkCorr fu im k kp hp]) ++
    kpRecords pts matchMap frameId fu im (k + 1) rest

/-- Whether the (camera im, keypoint k) pair of the query frame has a
usable association: an entry in the association map that is not the
sentinel 0 and refers to a table landmark with absolute homogeneous w at
least 1e-8. -/
noncomputable def acceptedPair (pts : ℕ → Option (Fin 4 → ℝ))
    (matchMap : ℕ × ℕ × ℕ → Option ℕ) (frameId im k : ℕ) : Bool :=
  match matchMap (frameId, im, k) with
  | none => false
  | some lmId =>
    if lmId = 0 then false
    else
      match pts lmId with
      | none => false
      | some hp => decide (¬ |hp 3| < 1e-8)

/-- The camera data the source reads for camera index im. -/
noncomputable def camOf (frame : MultiFrameData) (im : ℕ) : FrameCamera :=
  frame.cams.getD im defaultFrameCamera

/-- Junk keypoint used for an out-of-range keypoint access. -/
def defaultKeypointData : KeypointData := ⟨0, none⟩

/-- The keypoint data the source reads for camera im, keypoint k. -/
noncomputable def kpAt (frame : MultiFrameData) (im k : ℕ) : KeypointData :=
  (camOf frame im).keypoints.getD k defaultKeypointData

/-- The number of keypoints of camera im of the frame. -/
noncomputable def numKeypoints (frame : MultiFrameData) (im : ℕ) : ℕ :=
  (camOf frame im).keypoints.length

/-- Push a list of correspondence records, in order. -/
def appendRecs (st : AdapterState) (rs : List CorrRecord) : AdapterState :=
  rs.foldl appendCorr st

/-- Specification-side list of the records assembled for camera im. -/
noncomputable def camRecords (pts : ℕ → Option (Fin 4 → ℝ))
    (matchMap : ℕ × ℕ × ℕ → Option ℕ) (frame : MultiFrameData) (im : ℕ) :
    List CorrRecord :=
  kpRecords pts matchMap frame.id (camOf frame im).focalLengthU im 0
    (camOf frame im).keypoints

/-- Specification-side list of all records assembled over all cameras. -/
noncomputable def allRecords (pts : ℕ → Option (Fin 4 → ℝ))
    (matchMap : ℕ × ℕ × ℕ → Option ℕ) (rig : List DistortionKind)
    (frame : MultiFrameData) : List CorrRecord :=
  ((List.range rig.length).map (camRecords pts matchMap frame)).flatten

/-- Specification-side result of the camera loop over the camera indices
ims starting from state st: the frozen extrinsics of those cameras and all
their correspondence records appended. -/
noncomputable def runCameras (pts : ℕ → Option (Fin 4 → ℝ))
    (matchMap : ℕ × ℕ × ℕ → Option ℕ) (frame : MultiFrameData)
    (ims : List ℕ) (st : AdapterState) : AdapterState :=
  { camOffsets := st.camOffsets ++ ims.map fun im => (camOf frame im).T_SC_r
    camRotations := st.camRotations ++ ims.map fun im => (camOf frame im).T_SC_C
    points := st.points ++
      ((ims.map (camRecords pts matchMap frame)).flatten.map CorrRecord.point)
    bearingVectors := st.bearingVectors ++
      ((ims.map (camRecords pts matchMap frame)).flatten.map CorrRecord.bearing)
    sigmaAngles := st.sigmaAngles ++
      ((ims.map (camRecords pts matchMap frame)).flatten.map CorrRecord.sigmaAngle)
    camIndices := st.camIndices ++
      ((ims.map (camRecords pts matchMap frame)).flatten.map CorrRecord.camIndex)
    keypointIndices := st.keypointIndices ++
      ((ims.map (camRecords pts matchMap frame)).flatten.map CorrRecord.keypointIndex) }

/-- The number of (camera, keypoint) pairs of the query frame with a
usable landmark association. -/
noncomputable def acceptedCount (pts : ℕ → Option (Fin 4 → ℝ))
    (matchMap : ℕ × ℕ × ℕ → Option ℕ) (rig : List DistortionKind)
    (frame : MultiFrameData) : ℕ :=
  ((List.range rig.length).map fun im =>
    ((List.range (numKeypoints frame im)).filter
      (acceptedPair pts matchMap frame.id im)).length).sum

/-! ## Session container (Component, okvis/Component.hpp).

Modelled from the spec: only the declaration of Component is among the
sources (okvis/Component.hpp); the implementation of load is missing.  The
spec requires load to deserialize IMU parameters, camera-rig calibration,
graph content and frame data from the location and to be atomic: on success
the container is fully replaced by the persisted state, on any failure it
is left exactly as it was.  The persisted location is modelled by what its
deserialization yields for each of the four parts (none marking a failed or
missing part). -/

/-- The container state: IMU parameters, camera rig, graph content and
id-indexed frame data, with abstract content types. -/
structure ComponentState (α β γ δ : Type) where
  imuParameters : α
  nCameraSystem : β
  graph : γ
  multiFrames : δ

/-- What deserializing a persisted location yields for each part of the
container; none marks a failed or missing part. -/
structure PersistedComponent (α β γ δ : Type) where
  imuParameters : Option α
  nCameraSystem : Option β
  graph : Option γ
  multiFrames : Option δ

/-- Modelled from the spec: Component::load.  All four parts must
deserialize for the load to succeed, in which case the container is
replaced wholesale; any failure leaves the container untouched and reports
false. -/
def Component.load {α β γ δ : Type} (blob : PersistedComponent α β γ δ)
    (st : ComponentState α β γ δ) : Bool × ComponentState α β γ δ :=
  match blob.imuParameters, blob.nCameraSystem, blob.graph, blob.multiFrames with
  | some a, some b, some c, some d => (true, ⟨a, b, c, d⟩)
  | _, _, _, _ => (false, st)

/-! ## Concrete example inputs used to exercise the builder. -/

/-- Example landmark table: every id maps to the finite homogeneous point
(0, 0, 0, 1). -/
noncomputable def examplePts : ℕ → Option (Fin 4 → ℝ) := fun _ => some ![0, 0, 0, 1]

/-- Example association map: every keypoint is matched to landmark 1. -/
def exampleMatch : ℕ × ℕ × ℕ → Option ℕ := fun _ => some 1

/-- Example rig: one radial-tangential camera. -/
def exampleRig : List DistortionKind := [DistortionKind.RadialTangential]

/-- Example query frame: id 5, one camera with focal length 2 and two
keypoints, the first with a successful back-projection (0,0,1) and the
second with a failed back-projection. -/
noncomputable def exampleFrame : MultiFrameData :=
  ⟨5, [⟨0, 0, 2, [⟨1, some ![0, 0, 1]⟩, ⟨1, none⟩]⟩]⟩

/-- The state the example construction produces. -/
noncomputable def exampleState : AdapterState :=
  runCameras examplePts exampleMatch exampleFrame [0] emptyAdapterState

/-- A frame whose only keypoint has a successful back-projection that is
the zero vector. -/
noncomputable def zeroBearingFrame : MultiFrameData :=
  ⟨5, [⟨0, 0, 2, [⟨1, some ![0, 0, 0]⟩]⟩]⟩

/-- The state the construction on the zero-back-projection frame
produces. -/
noncomputable def zeroBearingState : AdapterState :=
  runCameras examplePts exampleMatch zeroBearingFrame [0] emptyAdapterState

/-! ## Theorems: Cholesky correctness. -/

/-- The diagonal of a positive definite real matrix is positive. -/
theorem posDef_diag_pos {n : ℕ} {M : Matrix (Fin n) (Fin n) ℝ}
    (hM : M.PosDef) (i : Fin n) : 0 < M i i := by
  have h := hM.2 (Pi.single i 1) (by
    intro hz
    have := congrFun hz i
    simp at this)
  simpa [Matrix.single_dotProduct, Matrix.mulVec_single] using h

/-- A real positive definite matrix is symmetric. -/
theorem posDef_symm {n : ℕ} {M : Matrix (Fin n) (Fin n) ℝ}
    (hM : M.PosDef) (i j : Fin n) : M j i = M i j := by
  have h := hM.1.apply i j
  simpa using h

/-- The Schur complement taken in the Cholesky step of a positive definite
matrix is positive definite. -/
theorem schur_posDef {n : ℕ} (M : Matrix (Fin (n + 1)) (Fin (n + 1)) ℝ)
    (hM : M.PosDef) :
    (Matrix.of fun i j : Fin n => M i.succ j.succ -
      M i.succ 0 / Real.sqrt (M 0 0) * (M j.succ 0 / Real.sqrt (M 0 0))).PosDef := by
  have ha : 0 < M 0 0 := posDef_diag_pos hM 0
  have hsym : ∀ i j, M j i = M i j := posDef_symm hM
  have hl : Real.sqrt (M 0 0) * Real.sqrt (M 0 0) = M 0 0 :=
    Real.mul_self_sqrt ha.le
  have hlne : Real.sqrt (M 0 0) ≠ 0 := by positivity
  constructor
  · show _ = _
    ext i j
    simp only [Matrix.conjTranspose_apply, Matrix.of_apply, star_trivial]
    rw [hsym i.succ j.succ]
    ring
  · intro y hy
    have hs : ∀ i : Fin n, M i.succ 0 = M 0 i.succ := fun i => (hsym i.succ 0).symm
    have hx : (Fin.cons (-(∑ j, M 0 j.succ * y j) / M 0 0) y : Fin (n + 1) → ℝ) ≠ 0 := by
      intro hz
      apply hy
      funext i
      have := congrFun hz i.succ
      simpa using this
    have key : (star y) ⬝ᵥ ((Matrix.of fun i j : Fin n => M i.succ j.succ -
        M i.succ 0 / Real.sqrt (M 0 0) * (M j.succ 0 / Real.sqrt (M 0 0))) *ᵥ y) =
        (star (Fin.cons (-(∑ j, M 0 j.succ * y j) / M 0 0) y : Fin (n + 1) → ℝ)) ⬝ᵥ
          (M *ᵥ (Fin.cons (-(∑ j, M 0 j.succ * y j) / M 0 0) y)) := by
      simp only [star_trivial, Matrix.dotProduct, Matrix.mulVec, Matrix.of_apply,
        Fin.sum_univ_succ, Fin.cons_zero, Fin.cons_succ]
      -- rewrite both sides into closed form in a, s, Q
      have lhs_eq : (∑ i, y i * ∑ j, (M i.succ j.succ -
            M i.succ 0 / Real.sqrt (M 0 0) * (M j.succ 0 / Real.sqrt (M 0 0))) * y j) =
          (∑ i, y i * ∑ j, M i.succ j.succ * y j) -
            (∑ j, M 0 j.succ * y j) * (∑ j, M 0 j.succ * y j) / M 0 0 := by
        have step1 : ∀ i : Fin n, (∑ j, (M i.succ j.succ -
              M i.succ 0 / Real.sqrt (M 0 0) * (M j.succ 0 / Real.sqrt (M 0 0))) * y j) =
            (∑ j, M i.succ j.succ * y j) -
              M i.succ 0 / Real.sqrt (M 0 0) * ∑ j, M j.succ 0 / Real.sqrt (M 0 0) * y j := by
          intro i
          rw [Finset.mul_sum, ← Finset.sum_sub_distrib]
          apply Finset.sum_congr rfl
          intro j _
          ring
        simp only [step1]
        have step2 : (∑ i, y i * ((∑ j, M i.succ j.succ * y j) -
              M i.succ 0 / Real.sqrt (M 0 0) * ∑ j, M j.succ 0 / Real.sqrt (M 0 0) * y j)) =
            (∑ i, y i * ∑ j, M i.succ j.succ * y j) -
              (∑ i, y i * (M i.succ 0 / Real.sqrt (M 0 0))) *
                (∑ j, M j.succ 0 / Real.sqrt (M 0 0) * y j) := by
          rw [Finset.sum_mul, ← Finset.sum_sub_distrib]
          apply Finset.sum_congr rfl
          intro i _
          ring
        rw [step2]
        congr 1
        have e1 : (∑ i, y i * (M i.succ 0 / Real.sqrt (M 0 0))) =
            (∑ j, M 0 j.succ * y j) / Real.sqrt (M 0 0) := by
          rw [Finset.sum_div]
          apply Finset.sum_congr rfl
          intro i _
          rw [hs i]
          ring
        have e2 : (∑ j, M j.succ 0 / Real.sqrt (M 0 0) * y j) =
            (∑ j, M 0 j.succ * y j) / Real.sqrt (M 0 0) := by
          rw [Finset.sum_div]
          apply Finset.sum_congr rfl
          intro j _
          rw [hs j]
          ring
        rw [e1, e2]
        rw [div_mul_div_comm, hl]
      have rhs_eq : (-(∑ j, M 0 j.succ * y j) / M 0 0 *
            (M 0 0 * (-(∑ j, M 0 j.succ * y j) / M 0 0) + ∑ j, M 0 j.succ * y j) +
          ∑ i, y i * (M i.succ 0 * (-(∑ j, M 0 j.succ * y j) / M 0 0) +
            ∑ j, M i.succ j.succ * y j)) =
          (∑ i, y i * ∑ j, M i.succ j.succ * y j) -
            (∑ j, M 0 j.succ * y j) * (∑ j, M 0 j.succ * y j) / M 0 0 := by
        have step3 : (∑ i, y i * (M i.succ 0 * (-(∑ j, M 0 j.succ * y j) / M 0 0) +
              ∑ j, M i.succ j.succ * y j)) =
            (∑ i, y i * M i.succ 0) * (-(∑ j, M 0 j.succ * y j) / M 0 0) +
              ∑ i, y i * ∑ j, M i.succ j.succ * y j := by
          rw [Finset.sum_mul, ← Finset.sum_add_distrib]
          apply Finset.sum_congr rfl
          intro i _
          ring
        rw [step3]
        have e3 : (∑ i, y i * M i.succ 0) = ∑ j, M 0 j.succ * y j := by
          apply Finset.sum_congr rfl
          intro i _
          rw [hs i]
          ring
        rw [e3]
        field_simp
        ring
      rw [lhs_eq, rhs_eq]
    rw [key]
    exact hM.2 _ hx

/-- Correctness of the Cholesky model on positive definite input: the
decomposition succeeds and the factor reproduces the matrix. -/
theorem chol_spec : ∀ (n : ℕ) (M : Matrix (Fin n) (Fin n) ℝ), M.PosDef →
    (chol n M).2 = true ∧ (chol n M).1 * ((chol n M).1)ᵀ = M := by
  intro n
  induction n with
  | zero =>
    intro M _
    refine ⟨rfl, ?_⟩
    ext i j
    exact i.elim0
  | succ n ih =>
    intro M hM
    have ha : 0 < M 0 0 := posDef_diag_pos hM 0
    have hsym : ∀ i j, M j i = M i j := posDef_symm hM
    have hnle : ¬ M 0 0 ≤ 0 := not_le.mpr ha
    have hl : Real.sqrt (M 0 0) * Real.sqrt (M 0 0) = M 0 0 :=
      Real.mul_self_sqrt ha.le
    have hlne : Real.sqrt (M 0 0) ≠ 0 := by positivity
    have hS := schur_posDef M hM
    obtain ⟨hflag, hfact⟩ := ih _ hS
    have hchol : chol (n + 1) M =
        (Matrix.of fun i j =>
          Fin.cases (Fin.cases (Real.sqrt (M 0 0)) (fun _ => (0 : ℝ)) j)
            (fun i2 => Fin.cases (M i2.succ 0 / Real.sqrt (M 0 0))
              (fun j2 => (chol n (Matrix.of fun i j : Fin n => M i.succ j.succ -
                M i.succ 0 / Real.sqrt (M 0 0) *
                  (M j.succ 0 / Real.sqrt (M 0 0)))).1 i2 j2) j) i,
         (chol n (Matrix.of fun i j : Fin n => M i.succ j.succ -
           M i.succ 0 / Real.sqrt (M 0 0) * (M j.succ 0 / Real.sqrt (M 0 0)))).2) := by
      rw [chol]
      rw [if_neg hnle]
    refine ⟨by rw [hchol]; exact hflag, ?_⟩
    rw [hchol]
    ext i j
    rw [Matrix.mul_apply]
    rcases Fin.eq_zero_or_eq_succ i with hi | ⟨i2, hi⟩ <;>
      rcases Fin.eq_zero_or_eq_succ j with hj | ⟨j2, hj⟩ <;> subst hi <;> subst hj
    · simp only [Matrix.transpose_apply, Matrix.of_apply, Fin.sum_univ_succ,
        Fin.cases_zero, Fin.cases_succ]
      simpa using hl
    · simp only [Matrix.transpose_apply, Matrix.of_apply, Fin.sum_univ_succ,
        Fin.cases_zero, Fin.cases_succ]
      rw [hsym j2.succ 0]
      field_simp
    · simp only [Matrix.transpose_apply, Matrix.of_apply, Fin.sum_univ_succ,
        Fin.cases_zero, Fin.cases_succ]
      field_simp
    · simp only [Matrix.transpose_apply, Matrix.of_apply, Fin.sum_univ_succ,
        Fin.cases_zero, Fin.cases_succ]
      have hentry := congrFun (congrFun hfact i2) j2
      rw [Matrix.mul_apply] at hentry
      simp only [Matrix.transpose_apply, Matrix.of_apply] at hentry
      rw [hentry]
      ring

/-! ## Theorems: quaternion rotation actions. -/

/-- Multiplicativity of the quaternion squared norm. -/
theorem normSq_mul (a b : Quaternion ℝ) :
    Quaternion.normSq (a * b) = Quaternion.normSq a * Quaternion.normSq b :=
  map_mul Quaternion.normSq a b

/-- The star of a pure quaternion is its negation. -/
theorem quatVec_star (v : Fin 3 → ℝ) : star (quatVec v) = -quatVec v := by
  ext <;> simp [quatVec]

/-- Conjugating a pure quaternion yields a quaternion with zero real part. -/
theorem re_conj_pure (q : Quaternion ℝ) (v : Fin 3 → ℝ) :
    (q * quatVec v * star q).re = 0 := by
  have h : star (q * quatVec v * star q) = -(q * quatVec v * star q) := by
    rw [StarMul.star_mul, StarMul.star_mul, star_star, quatVec_star]
    simp only [neg_mul, mul_neg, mul_assoc]
  have h2 := congrArg Quaternion.re h
  simp only [Quaternion.star_re, Quaternion.neg_re] at h2
  linarith

/-- A quaternion with zero imaginary part is the coercion of its real
part. -/
theorem eq_coe_of_quatIm_zero {d : Quaternion ℝ} (h : quatIm d = 0) :
    d = ((d.re : ℝ) : Quaternion ℝ) := by
  have h1 := congrFun h 0
  have h2 := congrFun h 1
  have h3 := congrFun h 2
  simp only [quatIm, Matrix.cons_val_zero, Matrix.cons_val_one, Matrix.head_cons,
    Matrix.cons_val_two, Matrix.tail_cons, Pi.zero_apply] at h1 h2 h3
  ext <;> simp [h1, h2, h3]

/-- The rotation action of a real multiple of a quaternion scales the
action by the square of the multiplier. -/
theorem rotAct_smul (c : ℝ) (q : Quaternion ℝ) (v : Fin 3 → ℝ) :
    rotAct (c • q) v = fun i => c * c * rotAct q v i := by
  have h : (c • q) * quatVec v * star (c • q) = (c * c) • (q * quatVec v * star q) := by
    rw [Quaternion.star_smul]
    rw [smul_mul_assoc, smul_mul_assoc, mul_smul_comm, smul_smul]
  funext i
  fin_cases i <;>
    simp [rotAct, quatIm, h, Quaternion.smul_imI, Quaternion.smul_imJ,
      Quaternion.smul_imK] <;>
    ring

/-- The imaginary part of p times q-inverse vanishes exactly when the two
unit quaternions have the same rotation action. -/
theorem quatIm_mul_inv_eq_zero_iff {p q : Quaternion ℝ}
    (hp : Quaternion.normSq p = 1) (hq : Quaternion.normSq q = 1) :
    quatIm (p * q⁻¹) = 0 ↔ ∀ v, rotAct p v = rotAct q v := by
  have hqinv : q⁻¹ = star q := by
    rw [Quaternion.instInv_inv, hq]
    simp
  rw [hqinv]
  constructor
  · intro h
    have hd := eq_coe_of_quatIm_zero h
    have hpq : p = (p * star q).re • q := by
      have hsq : star q * q = (1 : Quaternion ℝ) := by
        rw [Quaternion.star_mul_self, hq, Quaternion.coe_one]
      calc p = p * (star q * q) := by rw [hsq, mul_one]
        _ = p * star q * q := by rw [mul_assoc]
        _ = (((p * star q).re : ℝ) : Quaternion ℝ) * q := by rw [← hd]
        _ = (p * star q).re • q := Quaternion.coe_mul_eq_smul _ _
    have hc2 : (p * star q).re * (p * star q).re = 1 := by
      have hn : Quaternion.normSq p = (p * star q).re ^ 2 * Quaternion.normSq q := by
        rw [hpq]
        rw [Quaternion.normSq_smul]
        rw [← hpq]
      rw [hp, hq, mul_one] at hn
      rw [← sq]
      exact hn.symm
    intro v
    rw [hpq, rotAct_smul]
    funext i
    rw [hc2]
    simp
  · intro h
    have hstep1 : ∀ v : Fin 3 → ℝ, p * quatVec v * star p = q * quatVec v * star q := by
      intro v
      have him := h v
      have h0 := congrFun him 0
      have h1 := congrFun him 1
      have h2 := congrFun him 2
      simp only [rotAct, quatIm, Matrix.cons_val_zero, Matrix.cons_val_one, Matrix.head_cons,
        Matrix.cons_val_two, Matrix.tail_cons] at h0 h1 h2
      ext
      · rw [re_conj_pure, re_conj_pure]
      · exact h0
      · exact h1
      · exact h2
    have hgcomm : ∀ v : Fin 3 → ℝ,
        (star q * p) * quatVec v = quatVec v * (star q * p) := by
      intro v
      have hqq : star q * q = (1 : Quaternion ℝ) := by
        rw [Quaternion.star_mul_self, hq, Quaternion.coe_one]
      have hgg : star (star q * p) * (star q * p) = (1 : Quaternion ℝ) := by
        rw [Quaternion.star_mul_self]
        rw [normSq_mul, Quaternion.normSq_star, hq, hp, one_mul, Quaternion.coe_one]
      have hsg : star (star q * p) = star p * q := by
        rw [StarMul.star_mul, star_star]
      have hkey : (star q * p) * quatVec v * star (star q * p) = quatVec v := by
        calc (star q * p) * quatVec v * star (star q * p)
            = star q * (p * quatVec v * star p) * q := by
              rw [hsg]
              simp only [mul_assoc]
          _ = star q * (q * quatVec v * star q) * q := by rw [hstep1 v]
          _ = (star q * q) * (quatVec v * (star q * q)) := by
              simp only [mul_assoc]
          _ = quatVec v := by rw [hqq]; rw [one_mul, mul_one]
      calc (star q * p) * quatVec v
          = (star q * p) * quatVec v * (star (star q * p) * (star q * p)) := by
            rw [hgg, mul_one]
        _ = ((star q * p) * quatVec v * star (star q * p)) * (star q * p) := by
            simp only [mul_assoc]
        _ = quatVec v * (star q * p) := by rw [hkey]
    have hw1 := hgcomm ![1, 0, 0]
    have hw2 := hgcomm ![0, 1, 0]
    have hbe : (star q * p).imI = 0 ∧ (star q * p).imJ = 0 ∧ (star q * p).imK = 0 := by
      have e1 := congrArg Quaternion.imJ hw1
      have e2 := congrArg Quaternion.imK hw1
      have e3 := congrArg Quaternion.imK hw2
      simp only [Quaternion.mul_imI, Quaternion.mul_imJ, Quaternion.mul_imK, quatVec,
        Matrix.cons_val_zero, Matrix.cons_val_one, Matrix.head_cons,
        Matrix.cons_val_two, Matrix.tail_cons] at e1 e2 e3
      refine ⟨?_, ?_, ?_⟩ <;>
        simp only [Quaternion.mul_imI, Quaternion.mul_imJ, Quaternion.mul_imK] <;>
        linarith
    have hgco : star q * p = (((star q * p).re : ℝ) : Quaternion ℝ) := by
      apply eq_coe_of_quatIm_zero
      funext i
      fin_cases i <;> simp [quatIm, hbe.1, hbe.2.1, hbe.2.2]
    obtain ⟨c, hgco2⟩ : ∃ c : ℝ, star q * p = ((c : ℝ) : Quaternion ℝ) := ⟨_, hgco⟩
    have hqsq : q * star q = (1 : Quaternion ℝ) := by
      rw [Quaternion.self_mul_star, hq, Quaternion.coe_one]
    have hpg : p = q * ((c : ℝ) : Quaternion ℝ) := by
      rw [← hgco2, ← mul_assoc, hqsq, one_mul]
    have hfin : p * star q = ((c : ℝ) : Quaternion ℝ) := by
      rw [hpg, ← Quaternion.coe_commutes, mul_assoc, hqsq, mul_one]
    rw [hfin]
    funext i
    fin_cases i <;> simp [quatIm]

/-! ## Theorems: claims C1 and C6 on setInformation. -/

/-- C6: for every symmetric positive definite information matrix M,
setInformation stores the covariance equal to the inverse of M, and the
stored square-root information R (the transpose of the lower Cholesky
factor) satisfies R-transpose times R equals M (exactly, in the exact-real
model, hence within numerical tolerance). -/
theorem setInformation_spd_inverse_and_factor (st : RelativePoseErrorState)
    (M : Matrix (Fin 6) (Fin 6) ℝ) (hM : M.PosDef) :
    (RelativePoseError.setInformation st M).covariance = M⁻¹ ∧
    ((RelativePoseError.setInformation st M).squareRootInformation)ᵀ *
      (RelativePoseError.setInformation st M).squareRootInformation = M := by
  refine ⟨rfl, ?_⟩
  have h := (chol_spec 6 M hM).2
  show ((chol 6 M).1ᵀ)ᵀ * (chol 6 M).1ᵀ = M
  rw [Matrix.transpose_transpose]
  exact h

/-- Witness for C6 at the identity information matrix. -/
theorem setInformation_spd_inverse_and_factor_witness :
    Matrix.PosDef (1 : Matrix (Fin 6) (Fin 6) ℝ) ∧
    ((RelativePoseError.setInformation ⟨idTransf, 0, 0, 0⟩ 1).covariance =
        (1 : Matrix (Fin 6) (Fin 6) ℝ)⁻¹ ∧
      ((RelativePoseError.setInformation ⟨idTransf, 0, 0, 0⟩ 1).squareRootInformation)ᵀ *
        (RelativePoseError.setInformation ⟨idTransf, 0, 0, 0⟩ 1).squareRootInformation = 1) :=
  ⟨Matrix.PosDef.one,
    setInformation_spd_inverse_and_factor ⟨idTransf, 0, 0, 0⟩ 1 Matrix.PosDef.one⟩

/-- C1 counterexample: the negated identity information matrix is not
positive definite and the Cholesky decomposition reports failure at the
first pivot, yet setInformation completes normally (it has no failure
outcome at all), storing the transpose of the failed factor as the
square-root information used for whitening. -/
theorem setInformation_no_numerical_error :
    (chol 6 (-1 : Matrix (Fin 6) (Fin 6) ℝ)).2 = false ∧
    ¬ (-1 : Matrix (Fin 6) (Fin 6) ℝ).PosDef ∧
    RelativePoseError.setInformation ⟨idTransf, 0, 0, 0⟩ (-1) =
      ⟨idTransf, -1, (-1 : Matrix (Fin 6) (Fin 6) ℝ)⁻¹, -1⟩ := by
  have hentry : (-1 : Matrix (Fin 6) (Fin 6) ℝ) 0 0 = -1 := by
    simp [Matrix.neg_apply]
  have hfail : chol 6 (-1 : Matrix (Fin 6) (Fin 6) ℝ) = (-1, false) := by
    rw [chol]
    rw [if_pos (by rw [hentry]; norm_num)]
  refine ⟨by rw [hfail], ?_, ?_⟩
  · intro h
    have := posDef_diag_pos h 0
    rw [hentry] at this
    norm_num at this
  · show (⟨idTransf, -1, (-1 : Matrix (Fin 6) (Fin 6) ℝ)⁻¹,
      ((chol 6 (-1 : Matrix (Fin 6) (Fin 6) ℝ)).1)ᵀ⟩ : RelativePoseErrorState) = _
    rw [hfail]
    simp

/-- C1 amended: setInformation is a total operation with no failure
outcome; for every information matrix (positive definite or not) it stores
the matrix, its inverse as covariance, and the transpose of the Cholesky
factor attempt as square-root information, and evaluateResidual whitens the
error vector with exactly that stored matrix. -/
theorem setInformation_total (st : RelativePoseErrorState)
    (M : Matrix (Fin 6) (Fin 6) ℝ) :
    (RelativePoseError.setInformation st M).information = M ∧
    (RelativePoseError.setInformation st M).covariance = M⁻¹ ∧
    (RelativePoseError.setInformation st M).squareRootInformation = ((chol 6 M).1)ᵀ ∧
    ∀ pA pB, RelativePoseError.evaluateResidual
        (RelativePoseError.setInformation st M) pA pB =
      ((chol 6 M).1)ᵀ *ᵥ RelativePoseError.errorVector st.T_AB pA pB :=
  ⟨rfl, rfl, rfl, fun _ _ => rfl⟩

/-! ## Theorems: claim C2 on the residual. -/

/-- Renormalizing a nonzero quaternion yields a unit quaternion. -/
theorem normSq_quatNormalized {q : Quaternion ℝ} (hq : q ≠ 0) :
    Quaternion.normSq (quatNormalized q) = 1 := by
  have hpos : 0 < Quaternion.normSq q :=
    (Quaternion.normSq_nonneg).lt_of_ne' (Quaternion.normSq_ne_zero.mpr hq)
  rw [quatNormalized, if_pos hpos, Quaternion.normSq_smul, inv_pow,
    Real.sq_sqrt hpos.le, inv_mul_cancel₀ hpos.ne']

/-- A six-vector assembled from two three-vector halves vanishes exactly
when both halves vanish. -/
theorem append_eq_zero_iff {u v : Fin 3 → ℝ} :
    Fin.append u v = (0 : Fin 6 → ℝ) ↔ u = 0 ∧ v = 0 := by
  constructor
  · intro h
    constructor
    · funext i
      simpa [Fin.append_left] using congrFun h (Fin.castAdd 3 i)
    · funext i
      have h2 := congrFun h (Fin.natAdd 3 i)
      rwa [Fin.append_right] at h2
  · rintro ⟨rfl, rfl⟩
    funext i
    refine Fin.addCases (fun i => ?_) (fun i => ?_) i
    · rw [Fin.append_left]
      rfl
    · rw [Fin.append_right]
      rfl

/-- For positive definite information the stored square-root information
annihilates no nonzero vector. -/
theorem chol_mulVec_eq_zero {M : Matrix (Fin 6) (Fin 6) ℝ} (hM : M.PosDef)
    (e : Fin 6 → ℝ) (h : ((chol 6 M).1)ᵀ *ᵥ e = 0) : e = 0 := by
  by_contra hne
  have hpos := hM.2 e hne
  rw [star_trivial, ← (chol_spec 6 M hM).2, ← Matrix.mulVec_mulVec, h,
    Matrix.mulVec_zero, Matrix.dotProduct_zero] at hpos
  exact lt_irrefl 0 hpos

/-- C2: for a RelativePoseError built from a symmetric positive definite
information matrix and a unit-quaternion measured transform, the whitened
residual on two (renormalizable) ambient poses is the zero vector exactly
when the estimated relative transform inverse(pose A) composed with pose B
equals the measured transform as a rigid transform (identity rotation
difference and zero translation difference). -/
theorem evaluateResidual_zero_iff (M : Matrix (Fin 6) (Fin 6) ℝ) (hM : M.PosDef)
    (T_meas : Transf) (hT : Quaternion.normSq T_meas.q = 1) (pA pB : Fin 7 → ℝ)
    (hA : quatOfParams pA ≠ 0) (hB : quatOfParams pB ≠ 0) :
    RelativePoseError.evaluateResidual (RelativePoseError.ofInformation M T_meas)
        pA pB = 0 ↔
      SameRigid ((poseOfParams pA).inv.comp (poseOfParams pB)) T_meas := by
  have hid : RelativePoseError.evaluateResidual
      (RelativePoseError.ofInformation M T_meas) pA pB
      = ((chol 6 M).1)ᵀ *ᵥ RelativePoseError.errorVector T_meas pA pB := rfl
  rw [hid]
  have hestq : Quaternion.normSq ((poseOfParams pA).inv.comp (poseOfParams pB)).q = 1 := by
    show Quaternion.normSq
      (star (quatNormalized (quatOfParams pA)) * quatNormalized (quatOfParams pB)) = 1
    rw [normSq_mul, Quaternion.normSq_star, normSq_quatNormalized hA,
      normSq_quatNormalized hB, one_mul]
  constructor
  · intro h
    have he : RelativePoseError.errorVector T_meas pA pB = 0 :=
      chol_mulVec_eq_zero hM _ h
    rw [RelativePoseError.errorVector] at he
    obtain ⟨h1, h2⟩ := append_eq_zero_iff.mp he
    constructor
    · funext i
      have := congrFun h1 i
      simp only [Pi.zero_apply, sub_eq_zero] at this
      exact this.symm
    · have him : quatIm (T_meas.q *
          (((poseOfParams pA).inv.comp (poseOfParams pB)).q)⁻¹) = 0 := by
        funext i
        have := congrFun h2 i
        simp only [Pi.zero_apply, mul_eq_zero] at this
        rcases this with h | h
        · norm_num at h
        · simp [h]
      have hall := (quatIm_mul_inv_eq_zero_iff hT hestq).mp him
      intro v
      exact (hall v).symm
  · rintro ⟨h1, h2⟩
    have him := (quatIm_mul_inv_eq_zero_iff hT hestq).mpr fun v => (h2 v).symm
    have he : RelativePoseError.errorVector T_meas pA pB = 0 := by
      rw [RelativePoseError.errorVector]
      apply append_eq_zero_iff.mpr
      constructor
      · funext i
        simp [h1]
      · funext i
        have := congrFun him i
        simp only [Pi.zero_apply] at this
        simp [this]
    rw [he, Matrix.mulVec_zero]

/-- Witness for C2 at the identity information matrix, identity measured
transform and identity pose parameters. -/
theorem evaluateResidual_zero_iff_witness :
    Matrix.PosDef (1 : Matrix (Fin 6) (Fin 6) ℝ) ∧
    Quaternion.normSq idTransf.q = 1 ∧
    quatOfParams ![0, 0, 0, 0, 0, 0, 1] ≠ 0 ∧
    (RelativePoseError.evaluateResidual (RelativePoseError.ofInformation 1 idTransf)
        ![0, 0, 0, 0, 0, 0, 1] ![0, 0, 0, 0, 0, 0, 1] = 0 ↔
      SameRigid ((poseOfParams ![0, 0, 0, 0, 0, 0, 1]).inv.comp
        (poseOfParams ![0, 0, 0, 0, 0, 0, 1])) idTransf) := by
  have hq : quatOfParams ![0, 0, 0, 0, 0, 0, 1] ≠ 0 := by
    rw [show quatOfParams ![0, 0, 0, 0, 0, 0, 1] = ((1 : ℝ) : Quaternion ℝ) from rfl]
    simp
  have hT : Quaternion.normSq idTransf.q = 1 := by
    simp [idTransf]
  exact ⟨Matrix.PosDef.one, hT, hq,
    evaluateResidual_zero_iff 1 Matrix.PosDef.one idTransf hT _ _ hq hq⟩

/-! ## Theorems: the correspondence builder loop. -/

/-- How appending a list of records acts on each parallel array. -/
theorem appendRecs_fields : ∀ (rs : List CorrRecord) (st : AdapterState),
    (appendRecs st rs).camOffsets = st.camOffsets ∧
    (appendRecs st rs).camRotations = st.camRotations ∧
    (appendRecs st rs).points = st.points ++ rs.map CorrRecord.point ∧
    (appendRecs st rs).bearingVectors = st.bearingVectors ++ rs.map CorrRecord.bearing ∧
    (appendRecs st rs).sigmaAngles = st.sigmaAngles ++ rs.map CorrRecord.sigmaAngle ∧
    (appendRecs st rs).camIndices = st.camIndices ++ rs.map CorrRecord.camIndex ∧
    (appendRecs st rs).keypointIndices =
      st.keypointIndices ++ rs.map CorrRecord.keypointIndex := by
  intro rs
  induction rs with
  | nil => intro st; simp [appendRecs]
  | cons r rs ih =>
    intro st
    have h := ih (appendCorr st r)
    simp only [appendRecs, List.foldl_cons] at h ⊢
    simp only [appendCorr] at h ⊢
    obtain ⟨h1, h2, h3, h4, h5, h6, h7⟩ := h
    exact ⟨by simp [h1], by simp [h2], by simp [h3], by simp [h4], by simp [h5],
      by simp [h6], by simp [h7]⟩

/-- A run of the keypoint loop that does not abort appends exactly the
specified records. -/
theorem processKeypoints_ok (pts : ℕ → Option (Fin 4 → ℝ))
    (matchMap : ℕ × ℕ × ℕ → Option ℕ) (frameId : ℕ) (fu : ℝ) (im : ℕ) :
    ∀ (kps : List KeypointData) (k : ℕ) (st st' : AdapterState),
      processKeypoints pts matchMap frameId fu im k kps st = Except.ok st' →
      st' = appendRecs st (kpRecords pts matchMap frameId fu im k kps) := by
  intro kps
  induction kps with
  | nil =>
    intro k st st' h
    simp only [processKeypoints] at h
    cases h
    simp [kpRecords, appendRecs]
  | cons kp rest ih =>
    intro k st st' h
    simp only [processKeypoints] at h
    rw [processKeypoint] at h
    simp only [kpRecords]
    cases hm : matchMap (frameId, im, k) with
    | none =>
      rw [hm] at h
      dsimp only at h ⊢
      rw [List.nil_append]
      exact ih _ _ _ h
    | some lmId =>
      rw [hm] at h
      dsimp only at h ⊢
      by_cases h0 : lmId = 0
      · rw [if_pos h0] at h
        replace h : processKeypoints pts matchMap frameId fu im (k + 1) rest st =
          Except.ok st' := h
        rw [if_pos h0, List.nil_append]
        exact ih _ _ _ h
      · rw [if_neg h0] at h
        rw [if_neg h0]
        cases hp : pts lmId with
        | none =>
          rw [hp] at h
          exact Except.noConfusion h
        | some hpv =>
          rw [hp] at h
          dsimp only at h ⊢
          by_cases hw : |hpv 3| < 1e-8
          · rw [if_pos hw] at h
            replace h : processKeypoints pts matchMap frameId fu im (k + 1) rest st =
              Except.ok st' := h
            rw [if_pos hw, List.nil_append]
            exact ih _ _ _ h
          · rw [if_neg hw] at h
            replace h : processKeypoints pts matchMap frameId fu im (k + 1) rest
                (appendCorr st (mkCorr fu im k kp hpv)) = Except.ok st' := h
            rw [if_neg hw, List.singleton_append]
            show st' = appendRecs (appendCorr st (mkCorr fu im k kp hpv)) _
            exact ih _ _ _ h

/-- When every non-sentinel association of the processed keypoints is in
the landmark table, the keypoint loop completes and appends exactly the
specified records. -/
theorem processKeypoints_total (pts : ℕ → Option (Fin 4 → ℝ))
    (matchMap : ℕ × ℕ × ℕ → Option ℕ) (frameId : ℕ) (fu : ℝ) (im : ℕ) :
    ∀ (kps : List KeypointData) (k : ℕ) (st : AdapterState),
      (∀ j, j < kps.length → ∀ lmId, matchMap (frameId, im, k + j) = some lmId →
        lmId ≠ 0 → (pts lmId).isSome) →
      processKeypoints pts matchMap frameId fu im k kps st =
        Except.ok (appendRecs st (kpRecords pts matchMap frameId fu im k kps)) := by
  intro kps
  induction kps with
  | nil =>
    intro k st _
    simp [processKeypoints, kpRecords, appendRecs]
  | cons kp rest ih =>
    intro k st hpre
    have hpre2 : ∀ j, j < rest.length → ∀ lmId,
        matchMap (frameId, im, k + 1 + j) = some lmId → lmId ≠ 0 →
        (pts lmId).isSome := by
      intro j hj lmId hmj h0
      refine hpre (j + 1) (by simpa using Nat.succ_lt_succ hj) lmId ?_ h0
      rw [show k + (j + 1) = k + 1 + j by omega]
      exact hmj
    simp only [processKeypoints]
    rw [processKeypoint]
    simp only [kpRecords]
    cases hm : matchMap (frameId, im, k) with
    | none =>
      dsimp only
      rw [List.nil_append]
      exact ih (k + 1) st hpre2
    | some lmId =>
      dsimp only
      by_cases h0 : lmId = 0
      · rw [if_pos h0, if_pos h0, List.nil_append]
        exact ih (k + 1) st hpre2
      · have hsome : (pts lmId).isSome := by
          refine hpre 0 (by simp) lmId ?_ h0
          rw [Nat.add_zero]
          exact hm
        cases hp : pts lmId with
        | none =>
          rw [hp] at hsome
          simp at hsome
        | some hpv =>
          dsimp only
          rw [if_neg h0, if_neg h0]
          by_cases hw : |hpv 3| < 1e-8
          · rw [if_pos hw, if_pos hw, List.nil_append]
            exact ih (k + 1) st hpre2
          · rw [if_neg hw, if_neg hw, List.singleton_append]
            show _ = Except.ok (appendRecs (appendCorr st (mkCorr fu im k kp hpv)) _)
            exact ih (k + 1) (appendCorr st (mkCorr fu im k kp hpv)) hpre2

/-- The focal-length switch succeeds exactly on the supported distortion
families, returning the camera's focalLengthU. -/
theorem focalOf_supported {dt : DistortionKind}
    (h : dt ≠ DistortionKind.NoDistortion) (cam : FrameCamera) :
    focalOf dt cam = some cam.focalLengthU := by
  cases dt
  · rfl
  · rfl
  · exact absurd rfl h
  · rfl

/-- Unfolding the camera loop one camera at a time on the specification
side. -/
theorem runCameras_cons (pts : ℕ → Option (Fin 4 → ℝ))
    (matchMap : ℕ × ℕ × ℕ → Option ℕ) (frame : MultiFrameData) (im : ℕ)
    (rest : List ℕ) (st : AdapterState) :
    runCameras pts matchMap frame (im :: rest) st =
      runCameras pts matchMap frame rest
        (appendRecs
          { st with
            camOffsets := st.camOffsets ++ [(camOf frame im).T_SC_r]
            camRotations := st.camRotations ++ [(camOf frame im).T_SC_C] }
          (camRecords pts matchMap frame im)) := by
  obtain ⟨f1, f2, f3, f4, f5, f6, f7⟩ :=
    appendRecs_fields (camRecords pts matchMap frame im)
      { st with
        camOffsets := st.camOffsets ++ [(camOf frame im).T_SC_r]
        camRotations := st.camRotations ++ [(camOf frame im).T_SC_C] }
  simp [runCameras, f1, f2, f3, f4, f5, f6, f7, List.append_assoc]

/-- A run of the camera loop that does not abort produces exactly the
specified state. -/
theorem foldCameras_ok (pts : ℕ → Option (Fin 4 → ℝ))
    (matchMap : ℕ × ℕ × ℕ → Option ℕ) (frame : MultiFrameData)
    (dt0 : DistortionKind) (hdt : dt0 ≠ DistortionKind.NoDistortion) :
    ∀ (ims : List ℕ) (st st' : AdapterState),
      ims.foldlM (processCamera pts matchMap frame.id dt0 frame) st = Except.ok st' →
      st' = runCameras pts matchMap frame ims st := by
  intro ims
  induction ims with
  | nil =>
    intro st st' h
    replace h : Except.ok st = Except.ok st' := h
    cases h
    rcases st with ⟨a, b, c, d, e, f, g⟩
    simp [runCameras]
  | cons im rest ih =>
    intro st st' h
    rw [List.foldlM_cons] at h
    have hpc : processCamera pts matchMap frame.id dt0 frame st im =
        processKeypoints pts matchMap frame.id
          (frame.cams.getD im defaultFrameCamera).focalLengthU im 0
          (frame.cams.getD im defaultFrameCamera).keypoints
          { st with
            camOffsets := st.camOffsets ++ [(frame.cams.getD im defaultFrameCamera).T_SC_r]
            camRotations :=
              st.camRotations ++ [(frame.cams.getD im defaultFrameCamera).T_SC_C] } := by
      simp only [processCamera, focalOf_supported hdt]
    rw [hpc] at h
    cases hk : processKeypoints pts matchMap frame.id
        (frame.cams.getD im defaultFrameCamera).focalLengthU im 0
        (frame.cams.getD im defaultFrameCamera).keypoints
        { st with
          camOffsets := st.camOffsets ++ [(frame.cams.getD im defaultFrameCamera).T_SC_r]
          camRotations :=
            st.camRotations ++ [(frame.cams.getD im defaultFrameCamera).T_SC_C] } with
    | error e =>
      rw [hk] at h
      exact Except.noConfusion h
    | ok st2 =>
      rw [hk] at h
      replace h : rest.foldlM (processCamera pts matchMap frame.id dt0 frame) st2 =
        Except.ok st' := h
      have hst2 := processKeypoints_ok pts matchMap frame.id
        (frame.cams.getD im defaultFrameCamera).focalLengthU im _ _ _ _ hk
      rw [runCameras_cons]
      rw [ih st2 st' h, hst2]
      rfl

/-- When every non-sentinel association of the frame is in the landmark
table and the distortion family is supported, the camera loop completes
and produces exactly the specified state. -/
theorem foldCameras_total (pts : ℕ → Option (Fin 4 → ℝ))
    (matchMap : ℕ × ℕ × ℕ → Option ℕ) (frame : MultiFrameData)
    (dt0 : DistortionKind) (hdt : dt0 ≠ DistortionKind.NoDistortion) :
    ∀ (ims : List ℕ) (st : AdapterState),
      (∀ im, im ∈ ims → ∀ k, k < numKeypoints frame im → ∀ lmId,
        matchMap (frame.id, im, k) = some lmId → lmId ≠ 0 → (pts lmId).isSome) →
      ims.foldlM (processCamera pts matchMap frame.id dt0 frame) st =
        Except.ok (runCameras pts matchMap frame ims st) := by
  intro ims
  induction ims with
  | nil =>
    intro st _
    show Except.ok st = _
    rcases st with ⟨a, b, c, d, e, f, g⟩
    simp [runCameras]
  | cons im rest ih =>
    intro st hpre
    rw [List.foldlM_cons]
    have hpc : processCamera pts matchMap frame.id dt0 frame st im =
        processKeypoints pts matchMap frame.id
          (frame.cams.getD im defaultFrameCamera).focalLengthU im 0
          (frame.cams.getD im defaultFrameCamera).keypoints
          { st with
            camOffsets := st.camOffsets ++ [(frame.cams.getD im defaultFrameCamera).T_SC_r]
            camRotations :=
              st.camRotations ++ [(frame.cams.getD im defaultFrameCamera).T_SC_C] } := by
      simp only [processCamera, focalOf_supported hdt]
    rw [hpc]
    rw [processKeypoints_total pts matchMap frame.id
      (frame.cams.getD im defaultFrameCamera).focalLengthU im
      (frame.cams.getD im defaultFrameCamera).keypoints 0 _
      (fun j hj lmId hmj h0 => hpre im (List.mem_cons_self im rest) j
        (by simpa [numKeypoints, camOf] using hj) lmId (by simpa using hmj) h0)]
    show rest.foldlM (processCamera pts matchMap frame.id dt0 frame) _ = _
    rw [ih _ (fun im2 hmem k hk lmId hm h0 =>
      hpre im2 (List.mem_cons_of_mem im hmem) k hk lmId hm h0)]
    rw [runCameras_cons]
    rfl

/-- A construction that does not abort produces exactly the specified
state. -/
theorem constructAdapter_ok (pts : ℕ → Option (Fin 4 → ℝ))
    (matchMap : ℕ × ℕ × ℕ → Option ℕ) (rig : List DistortionKind)
    (frame : MultiFrameData) (st' : AdapterState)
    (h : constructAdapter pts matchMap rig frame = Except.ok st') :
    st' = runCameras pts matchMap frame (List.range rig.length) emptyAdapterState := by
  simp only [constructAdapter] at h
  by_cases hall :
      rig.all (fun d => decide (d = rig.getD 0 DistortionKind.NoDistortion)) = true
  · rw [if_pos hall] at h
    by_cases hdt :
        rig.getD 0 DistortionKind.NoDistortion = DistortionKind.NoDistortion
    · cases rig with
      | nil =>
        replace h : Except.ok emptyAdapterState = Except.ok st' := h
        cases h
        simp [runCameras, emptyAdapterState]
      | cons d0 drest =>
        rw [List.getD_cons_zero] at hdt
        exfalso
        rw [show (d0 :: drest).length = drest.length + 1 from rfl,
          List.range_succ_eq_map, List.foldlM_cons] at h
        have hpc0 : processCamera pts matchMap frame.id
            ((d0 :: drest).getD 0 DistortionKind.NoDistortion) frame
            emptyAdapterState 0 =
            Except.error AdapterError.unsupportedType := by
          simp only [processCamera, List.getD_cons_zero, hdt, focalOf]
        rw [hpc0] at h
        exact Except.noConfusion h
    · exact foldCameras_ok pts matchMap frame _ hdt _ _ _ h
  · rw [if_neg hall] at h
    exact Except.noConfusion h

/-- C4: a rig with two cameras of different distortion families fails
construction deterministically with the mixed-types configuration error,
raised by the check that runs before any camera or keypoint is processed
(no state is produced at all). -/
theorem mixed_rig_construction_fails (pts : ℕ → Option (Fin 4 → ℝ))
    (matchMap : ℕ × ℕ × ℕ → Option ℕ) (rig : List DistortionKind)
    (frame : MultiFrameData)
    (hmix : ∃ i j, i < rig.length ∧ j < rig.length ∧
      rig.getD i DistortionKind.NoDistortion ≠
        rig.getD j DistortionKind.NoDistortion) :
    constructAdapter pts matchMap rig frame = Except.error AdapterError.mixedTypes := by
  obtain ⟨i, j, hi, hj, hne⟩ := hmix
  simp only [constructAdapter]
  rw [if_neg]
  intro hall
  rw [List.all_eq_true] at hall
  have h1 := hall _ (List.getElem_mem hi)
  have h2 := hall _ (List.getElem_mem hj)
  rw [decide_eq_true_eq] at h1 h2
  rw [List.getD_eq_getElem rig DistortionKind.NoDistortion hi,
    List.getD_eq_getElem rig DistortionKind.NoDistortion hj] at hne
  exact hne (h1.trans h2.symm)

/-- Witness for C4 on a two-camera rig mixing radial-tangential and
equidistant distortion. -/
theorem mixed_rig_construction_fails_witness :
    (∃ i j,
      i < ([DistortionKind.RadialTangential,
            DistortionKind.Equidistant] : List DistortionKind).length ∧
      j < ([DistortionKind.RadialTangential,
            DistortionKind.Equidistant] : List DistortionKind).length ∧
      ([DistortionKind.RadialTangential,
        DistortionKind.Equidistant] : List DistortionKind).getD i
          DistortionKind.NoDistortion ≠
        ([DistortionKind.RadialTangential,
          DistortionKind.Equidistant] : List DistortionKind).getD j
            DistortionKind.NoDistortion) ∧
    constructAdapter examplePts exampleMatch
      [DistortionKind.RadialTangential, DistortionKind.Equidistant] exampleFrame =
      Except.error AdapterError.mixedTypes :=
  ⟨⟨0, 1, by norm_num, by norm_num, by decide⟩,
    mixed_rig_construction_fails examplePts exampleMatch _ exampleFrame
      ⟨0, 1, by norm_num, by norm_num, by decide⟩⟩

/-- C9: when every non-sentinel landmark id the association map assigns to
a keypoint of the query frame is present in the landmark table, the
at()-lookup abort is unreachable: construction never fails with
missingLandmark, and on a uniform supported rig it is total, returning the
assembled state. -/
theorem lookup_precondition_totality (pts : ℕ → Option (Fin 4 → ℝ))
    (matchMap : ℕ × ℕ × ℕ → Option ℕ) (rig : List DistortionKind)
    (frame : MultiFrameData)
    (hpre : ∀ im k, im < rig.length → k < numKeypoints frame im → ∀ lmId,
      matchMap (frame.id, im, k) = some lmId → lmId ≠ 0 → (pts lmId).isSome) :
    constructAdapter pts matchMap rig frame ≠
      Except.error AdapterError.missingLandmark ∧
    ((∀ d ∈ rig, d = rig.getD 0 DistortionKind.NoDistortion) →
      rig.getD 0 DistortionKind.NoDistortion ≠ DistortionKind.NoDistortion →
      constructAdapter pts matchMap rig frame =
        Except.ok (runCameras pts matchMap frame (List.range rig.length)
          emptyAdapterState)) := by
  have htot : ∀ (hdt : rig.getD 0 DistortionKind.NoDistortion ≠ DistortionKind.NoDistortion),
      (List.range rig.length).foldlM
        (processCamera pts matchMap frame.id
          (rig.getD 0 DistortionKind.NoDistortion) frame) emptyAdapterState =
      Except.ok (runCameras pts matchMap frame (List.range rig.length)
        emptyAdapterState) := by
    intro hdt
    exact foldCameras_total pts matchMap frame _ hdt _ _
      (fun im hmem k hk lmId hm h0 =>
        hpre im k (List.mem_range.mp hmem) hk lmId hm h0)
  constructor
  · simp only [constructAdapter]
    by_cases hall :
        rig.all (fun d => decide (d = rig.getD 0 DistortionKind.NoDistortion)) = true
    · rw [if_pos hall]
      by_cases hdt :
          rig.getD 0 DistortionKind.NoDistortion = DistortionKind.NoDistortion
      · cases rig with
        | nil =>
          intro h
          exact Except.noConfusion h
        | cons d0 drest =>
          rw [List.getD_cons_zero] at hdt
          rw [show (d0 :: drest).length = drest.length + 1 from rfl,
            List.range_succ_eq_map, List.foldlM_cons]
          have hpc0 : processCamera pts matchMap frame.id
              ((d0 :: drest).getD 0 DistortionKind.NoDistortion) frame
              emptyAdapterState 0 =
              Except.error AdapterError.unsupportedType := by
            simp only [processCamera, List.getD_cons_zero, hdt, focalOf]
          rw [hpc0]
          intro h
          have := Except.error.inj h
          exact AdapterError.noConfusion this
      · rw [htot hdt]
        intro h
        exact Except.noConfusion h
    · rw [if_neg hall]
      intro h
      have := Except.error.inj h
      exact AdapterError.noConfusion this
  · intro huni hdt
    simp only [constructAdapter]
    rw [if_pos ?_]
    · exact htot hdt
    · rw [List.all_eq_true]
      intro d hd
      rw [decide_eq_true_eq]
      exact huni d hd

/-- Witness for C9 on the example inputs. -/
theorem lookup_precondition_totality_witness :
    (∀ im k, im < exampleRig.length → k < numKeypoints exampleFrame im → ∀ lmId,
      exampleMatch (exampleFrame.id, im, k) = some lmId → lmId ≠ 0 →
      (examplePts lmId).isSome) ∧
    constructAdapter examplePts exampleMatch exampleRig exampleFrame ≠
      Except.error AdapterError.missingLandmark ∧
    ((∀ d ∈ exampleRig, d = exampleRig.getD 0 DistortionKind.NoDistortion) →
      exampleRig.getD 0 DistortionKind.NoDistortion ≠ DistortionKind.NoDistortion →
      constructAdapter examplePts exampleMatch exampleRig exampleFrame =
        Except.ok (runCameras examplePts exampleMatch exampleFrame
          (List.range exampleRig.length) emptyAdapterState)) := by
  have hpre : ∀ im k, im < exampleRig.length → k < numKeypoints exampleFrame im →
      ∀ lmId, exampleMatch (exampleFrame.id, im, k) = some lmId → lmId ≠ 0 →
      (examplePts lmId).isSome := by
    intro im k _ _ lmId _ _
    simp [examplePts]
  exact ⟨hpre,
    lookup_precondition_totality examplePts exampleMatch exampleRig exampleFrame hpre⟩

/-- The length of a filtered list is the count of elements satisfying the
predicate. -/
theorem length_filter_countP (l : List ℕ) (p : ℕ → Bool) :
    (l.filter p).length = l.countP p := by
  induction l with
  | nil => rfl
  | cons a l ih =>
    rw [List.filter_cons, List.countP_cons]
    split <;> simp [*]

/-- One step of the record list has length one exactly on an accepted
pair. -/
theorem kpRecords_cons_length (pts : ℕ → Option (Fin 4 → ℝ))
    (matchMap : ℕ × ℕ × ℕ → Option ℕ) (frameId : ℕ) (fu : ℝ) (im k : ℕ)
    (kp : KeypointData) (rest : List KeypointData) :
    (kpRecords pts matchMap frameId fu im k (kp :: rest)).length =
      (if acceptedPair pts matchMap frameId im k then 1 else 0) +
      (kpRecords pts matchMap frameId fu im (k + 1) rest).length := by
  have hhead : (match matchMap (frameId, im, k) with
      | none => ([] : List CorrRecord)
      | some lmId =>
        if lmId = 0 then []
        else
          match pts lmId with
          | none => []
          | some hp =>
            if |hp 3| < 1e-8 then [] else [mkCorr fu im k kp hp]).length =
      if acceptedPair pts matchMap frameId im k then 1 else 0 := by
    rw [acceptedPair]
    rcases hm : matchMap (frameId, im, k) with _ | lmId
    · rfl
    · dsimp only
      by_cases h0 : lmId = 0
      · rw [if_pos h0, if_pos h0]
        rfl
      · rw [if_neg h0, if_neg h0]
        rcases hp : pts lmId with _ | hpv
        · rfl
        · dsimp only
          by_cases hw : |hpv 3| < 1e-8
          · rw [if_pos hw]
            simp [hw]
          · rw [if_neg hw]
            simp [hw]
  simp only [kpRecords, List.length_append, hhead]

/-- The record list of one camera counts exactly the accepted pairs of its
keypoints. -/
theorem kpRecords_length (pts : ℕ → Option (Fin 4 → ℝ))
    (matchMap : ℕ × ℕ × ℕ → Option ℕ) (frameId : ℕ) (fu : ℝ) (im : ℕ) :
    ∀ (kps : List KeypointData) (k : ℕ),
      (kpRecords pts matchMap frameId fu im k kps).length =
        (List.range kps.length).countP
          (fun j => acceptedPair pts matchMap frameId im (k + j)) := by
  intro kps
  induction kps with
  | nil =>
    intro k
    simp [kpRecords]
  | cons kp rest ih =>
    intro k
    rw [kpRecords_cons_length, ih (k + 1)]
    rw [show (kp :: rest).length = rest.length + 1 from rfl, List.range_succ_eq_map]
    rw [List.countP_cons, List.countP_map]
    have hfun : ((fun j => acceptedPair pts matchMap frameId im (k + j)) ∘ Nat.succ) =
        (fun j => acceptedPair pts matchMap frameId im (k + 1 + j)) := by
      funext j
      show acceptedPair pts matchMap frameId im (k + (j + 1)) = _
      congr 1
      omega
    rw [hfun]
    simp only [Nat.add_zero]
    exact Nat.add_comm _ _

/-- The total number of assembled records equals the number of accepted
(camera, keypoint) pairs. -/
theorem allRecords_length (pts : ℕ → Option (Fin 4 → ℝ))
    (matchMap : ℕ × ℕ × ℕ → Option ℕ) (rig : List DistortionKind)
    (frame : MultiFrameData) :
    (allRecords pts matchMap rig frame).length =
      acceptedCount pts matchMap rig frame := by
  rw [allRecords, acceptedCount, List.length_flatten, List.map_map]
  congr 1
  apply List.map_congr_left
  intro im _
  show (camRecords pts matchMap frame im).length = _
  rw [camRecords, kpRecords_length, length_filter_countP]
  congr 1
  funext j
  rw [Nat.zero_add]

/-- Inversion: every assembled record of one camera's loop comes from an
accepted keypoint, with all its fields determined by the frame data and
the landmark. -/
theorem kpRecords_mem (pts : ℕ → Option (Fin 4 → ℝ))
    (matchMap : ℕ × ℕ × ℕ → Option ℕ) (frameId : ℕ) (fu : ℝ) (im : ℕ) :
    ∀ (kps : List KeypointData) (k : ℕ) (r : CorrRecord),
      r ∈ kpRecords pts matchMap frameId fu im k kps →
      ∃ j lmId hp, j < kps.length ∧
        matchMap (frameId, im, k + j) = some lmId ∧ lmId ≠ 0 ∧
        pts lmId = some hp ∧ ¬ |hp 3| < 1e-8 ∧
        r = mkCorr fu im (k + j) (kps.getD j defaultKeypointData) hp := by
  intro kps
  induction kps with
  | nil =>
    intro k r h
    simp [kpRecords] at h
  | cons kp rest ih =>
    intro k r h
    simp only [kpRecords] at h
    rw [List.mem_append] at h
    rcases h with h | h
    · cases hm : matchMap (frameId, im, k) with
      | none =>
        rw [hm] at h
        simp at h
      | some lmId =>
        rw [hm] at h
        dsimp only at h
        by_cases h0 : lmId = 0
        · rw [if_pos h0] at h
          simp at h
        · rw [if_neg h0] at h
          cases hp : pts lmId with
          | none =>
            rw [hp] at h
            simp at h
          | some hpv =>
            rw [hp] at h
            dsimp only at h
            by_cases hw : |hpv 3| < 1e-8
            · rw [if_pos hw] at h
              simp at h
            · rw [if_neg hw] at h
              rw [List.mem_singleton] at h
              exact ⟨0, lmId, hpv, by simp, by simpa using hm, h0, hp, hw,
                by simpa [List.getD_cons_zero] using h⟩
    · obtain ⟨j, lmId, hpv, hj, hm2, h0, hp2, hw, hr⟩ := ih (k + 1) r h
      refine ⟨j + 1, lmId, hpv, by simpa using Nat.succ_lt_succ hj, ?_, h0, hp2, hw, ?_⟩
      · rw [show k + (j + 1) = k + 1 + j by omega]
        exact hm2
      · rw [show k + (j + 1) = k + 1 + j by omega, List.getD_cons_succ]
        exact hr

/-- Completeness: every accepted keypoint of one camera's loop contributes
its record. -/
theorem kpRecords_complete (pts : ℕ → Option (Fin 4 → ℝ))
    (matchMap : ℕ × ℕ × ℕ → Option ℕ) (frameId : ℕ) (fu : ℝ) (im : ℕ) :
    ∀ (kps : List KeypointData) (k j : ℕ) (lmId : ℕ) (hp : Fin 4 → ℝ),
      j < kps.length →
      matchMap (frameId, im, k + j) = some lmId → lmId ≠ 0 →
      pts lmId = some hp → ¬ |hp 3| < 1e-8 →
      mkCorr fu im (k + j) (kps.getD j defaultKeypointData) hp ∈
        kpRecords pts matchMap frameId fu im k kps := by
  intro kps
  induction kps with
  | nil =>
    intro k j lmId hp hj
    simp at hj
  | cons kp rest ih =>
    intro k j lmId hp hj hm h0 hpts hw
    simp only [kpRecords]
    rw [List.mem_append]
    cases j with
    | zero =>
      left
      rw [Nat.add_zero] at hm ⊢
      rw [List.getD_cons_zero, hm]
      dsimp only
      rw [if_neg h0, hpts]
      dsimp only
      rw [if_neg hw]
      exact List.mem_singleton.mpr rfl
    | succ j2 =>
      right
      have hres := ih (k + 1) j2 lmId hp (by simpa using Nat.lt_of_succ_lt_succ hj)
        (by rw [show k + 1 + j2 = k + (j2 + 1) by omega]; exact hm) h0 hpts hw
      rw [show k + (j2 + 1) = k + 1 + j2 by omega, List.getD_cons_succ]
      exact hres

/-- The parallel arrays of a successfully constructed adapter are exactly
the per-camera extrinsics and the fields of the assembled records. -/
theorem constructAdapter_fields (pts : ℕ → Option (Fin 4 → ℝ))
    (matchMap : ℕ × ℕ × ℕ → Option ℕ) (rig : List DistortionKind)
    (frame : MultiFrameData) (st : AdapterState)
    (h : constructAdapter pts matchMap rig frame = Except.ok st) :
    st.camOffsets = (List.range rig.length).map (fun im => (camOf frame im).T_SC_r) ∧
    st.camRotations = (List.range rig.length).map (fun im => (camOf frame im).T_SC_C) ∧
    st.points = (allRecords pts matchMap rig frame).map CorrRecord.point ∧
    st.bearingVectors = (allRecords pts matchMap rig frame).map CorrRecord.bearing ∧
    st.sigmaAngles = (allRecords pts matchMap rig frame).map CorrRecord.sigmaAngle ∧
    st.camIndices = (allRecords pts matchMap rig frame).map CorrRecord.camIndex ∧
    st.keypointIndices =
      (allRecords pts matchMap rig frame).map CorrRecord.keypointIndex := by
  have hst := constructAdapter_ok _ _ _ _ _ h
  subst hst
  simp [runCameras, emptyAdapterState, allRecords]

/-- Inversion for an indexed record of the whole construction. -/
theorem allRecords_getElem (pts : ℕ → Option (Fin 4 → ℝ))
    (matchMap : ℕ × ℕ × ℕ → Option ℕ) (rig : List DistortionKind)
    (frame : MultiFrameData) (i : ℕ)
    (hi : i < (allRecords pts matchMap rig frame).length) :
    ∃ im j lmId hp, im < rig.length ∧ j < numKeypoints frame im ∧
      matchMap (frame.id, im, j) = some lmId ∧ lmId ≠ 0 ∧
      pts lmId = some hp ∧ ¬ |hp 3| < 1e-8 ∧
      (allRecords pts matchMap rig frame)[i] =
        mkCorr (camOf frame im).focalLengthU im j (kpAt frame im j) hp := by
  have hmem : (allRecords pts matchMap rig frame)[i] ∈
      allRecords pts matchMap rig frame := List.getElem_mem hi
  obtain ⟨l, hl, hrl⟩ := List.mem_flatten.mp
    (show (allRecords pts matchMap rig frame)[i] ∈
      ((List.range rig.length).map (camRecords pts matchMap frame)).flatten from hmem)
  obtain ⟨im, him, rfl⟩ := List.mem_map.mp hl
  obtain ⟨j, lmId, hpv, hj, hm, h0, hpts, hw, hr⟩ :=
    kpRecords_mem pts matchMap frame.id (camOf frame im).focalLengthU im _ 0 _ hrl
  refine ⟨im, j, lmId, hpv, List.mem_range.mp him, by simpa [numKeypoints] using hj,
    by simpa using hm, h0, hpts, hw, ?_⟩
  rw [hr]
  simp [kpAt]

/-- Normalizing the fallback direction leaves it unchanged. -/
theorem normalize3_fallback : normalize3 ![1, 0, 0] = ![1, 0, 0] := by
  have hz : sqNorm3 ![1, 0, 0] = 1 := by
    simp [sqNorm3]
  rw [normalize3, if_pos (by rw [hz]; norm_num)]
  funext i
  rw [hz, Real.sqrt_one]
  simp

/-- Eigen normalize produces a unit vector on any vector of nonzero
squared norm. -/
theorem sqNorm3_normalize3 {v : Fin 3 → ℝ} (hv : sqNorm3 v ≠ 0) :
    sqNorm3 (normalize3 v) = 1 := by
  have hnn : 0 ≤ sqNorm3 v := by
    rw [sqNorm3]
    nlinarith [mul_self_nonneg (v 0), mul_self_nonneg (v 1), mul_self_nonneg (v 2)]
  have hpos : 0 < sqNorm3 v := hnn.lt_of_ne' hv
  have hs : Real.sqrt (sqNorm3 v) * Real.sqrt (sqNorm3 v) = sqNorm3 v :=
    Real.mul_self_sqrt hnn
  have hsne : Real.sqrt (sqNorm3 v) ≠ 0 := by positivity
  rw [normalize3, if_pos hpos]
  show v 0 / Real.sqrt (sqNorm3 v) * (v 0 / Real.sqrt (sqNorm3 v)) +
    v 1 / Real.sqrt (sqNorm3 v) * (v 1 / Real.sqrt (sqNorm3 v)) +
    v 2 / Real.sqrt (sqNorm3 v) * (v 2 / Real.sqrt (sqNorm3 v)) = 1
  field_simp
  rw [sqNorm3]

/-- Evaluation of the example construction. -/
theorem exampleState_eval :
    constructAdapter examplePts exampleMatch exampleRig exampleFrame =
      Except.ok exampleState := by
  have hdt : exampleRig.getD 0 DistortionKind.NoDistortion ≠
      DistortionKind.NoDistortion := by decide
  have htot := foldCameras_total examplePts exampleMatch exampleFrame
    (exampleRig.getD 0 DistortionKind.NoDistortion) hdt [0] emptyAdapterState
    (fun im _ k _ lmId _ _ => by simp [examplePts])
  simp only [constructAdapter]
  rw [if_pos (by decide)]
  rw [show List.range exampleRig.length = [0] from rfl]
  exact htot

/-- Evaluation of the construction on the zero-back-projection frame. -/
theorem zeroBearingState_eval :
    constructAdapter examplePts exampleMatch exampleRig zeroBearingFrame =
      Except.ok zeroBearingState := by
  have hdt : exampleRig.getD 0 DistortionKind.NoDistortion ≠
      DistortionKind.NoDistortion := by decide
  have htot := foldCameras_total examplePts exampleMatch zeroBearingFrame
    (exampleRig.getD 0 DistortionKind.NoDistortion) hdt [0] emptyAdapterState
    (fun im _ k _ lmId _ _ => by simp [examplePts])
  simp only [constructAdapter]
  rw [if_pos (by decide)]
  rw [show List.range exampleRig.length = [0] from rfl]
  exact htot

/-- C3: the number of assembled correspondences equals the number of
(camera, keypoint) pairs whose association exists, is not the sentinel 0
and refers to a landmark with absolute homogeneous w at least 1e-8; the
bearing array has the same size, and every stored 3D point is the
dehomogenization of such a landmark (a landmark with absolute w below 1e-8
never contributes). -/
theorem correspondence_count (pts : ℕ → Option (Fin 4 → ℝ))
    (matchMap : ℕ × ℕ × ℕ → Option ℕ) (rig : List DistortionKind)
    (frame : MultiFrameData) (st : AdapterState)
    (h : constructAdapter pts matchMap rig frame = Except.ok st) :
    getNumberCorrespondences st = acceptedCount pts matchMap rig frame ∧
    st.bearingVectors.length = acceptedCount pts matchMap rig frame ∧
    ∀ p ∈ st.points, ∃ lmId hp, pts lmId = some hp ∧ ¬ |hp 3| < 1e-8 ∧
      p = fun t : Fin 3 => hp t.castSucc / hp 3 := by
  obtain ⟨h1, h2, h3, h4, h5, h6, h7⟩ := constructAdapter_fields _ _ _ _ _ h
  refine ⟨?_, ?_, ?_⟩
  · rw [getNumberCorrespondences, h3, List.length_map, allRecords_length]
  · rw [h4, List.length_map, allRecords_length]
  · intro p hp
    rw [h3] at hp
    obtain ⟨r, hr, rfl⟩ := List.mem_map.mp hp
    obtain ⟨i, hi, hieq⟩ := List.mem_iff_getElem.mp hr
    obtain ⟨im, j, lmId, hpv, him, hj, hm, h0, hpts, hw, hrec⟩ :=
      allRecords_getElem pts matchMap rig frame i hi
    rw [hieq] at hrec
    exact ⟨lmId, hpv, hpts, hw, by rw [hrec]; rfl⟩

/-- Witness for C3 on the example inputs. -/
theorem correspondence_count_witness :
    constructAdapter examplePts exampleMatch exampleRig exampleFrame =
      Except.ok exampleState ∧
    (getNumberCorrespondences exampleState =
        acceptedCount examplePts exampleMatch exampleRig exampleFrame ∧
      exampleState.bearingVectors.length =
        acceptedCount examplePts exampleMatch exampleRig exampleFrame ∧
      ∀ p ∈ exampleState.points, ∃ lmId hp, examplePts lmId = some hp ∧
        ¬ |hp 3| < 1e-8 ∧ p = fun t : Fin 3 => hp t.castSucc / hp 3) :=
  ⟨exampleState_eval,
    correspondence_count examplePts exampleMatch exampleRig exampleFrame
      exampleState exampleState_eval⟩

/-- C7: each stored angular sigma is the claimed function of the keypoint
size read from the frame and the per-camera focal length, and getSigmaAngle
returns it. -/
theorem sigma_angle_formula (pts : ℕ → Option (Fin 4 → ℝ))
    (matchMap : ℕ × ℕ × ℕ → Option ℕ) (rig : List DistortionKind)
    (frame : MultiFrameData) (st : AdapterState)
    (h : constructAdapter pts matchMap rig frame = Except.ok st)
    (i : ℕ) (hi : i < getNumberCorrespondences st) :
    getSigmaAngle st i =
      Real.sqrt 2 * (0.8 * (kpAt frame (st.camIndices.getD i 0)
          (st.keypointIndices.getD i 0)).size / 12) ^ 2 /
        (camOf frame (st.camIndices.getD i 0)).focalLengthU ^ 2 := by
  obtain ⟨h1, h2, h3, h4, h5, h6, h7⟩ := constructAdapter_fields _ _ _ _ _ h
  have hlen : i < (allRecords pts matchMap rig frame).length := by
    rw [getNumberCorrespondences, h3, List.length_map] at hi
    exact hi
  obtain ⟨im, j, lmId, hpv, him, hj, hm, h0, hpts, hw, hrec⟩ :=
    allRecords_getElem pts matchMap rig frame i hlen
  have hcam : st.camIndices.getD i 0 = im := by
    rw [h6, List.getD_eq_getElem _ _ (by simpa using hlen), List.getElem_map, hrec]
    rfl
  have hkp : st.keypointIndices.getD i 0 = j := by
    rw [h7, List.getD_eq_getElem _ _ (by simpa using hlen), List.getElem_map, hrec]
    rfl
  rw [getSigmaAngle, h5, List.getD_eq_getElem _ _ (by simpa using hlen),
    List.getElem_map, hrec, hcam, hkp]
  show Real.sqrt 2 * (0.8 * (kpAt frame im j).size / 12) *
      (0.8 * (kpAt frame im j).size / 12) /
      ((camOf frame im).focalLengthU * (camOf frame im).focalLengthU) = _
  ring

/-- Witness for C7 on the example inputs, at correspondence index 0. -/
theorem sigma_angle_formula_witness :
    constructAdapter examplePts exampleMatch exampleRig exampleFrame =
      Except.ok exampleState ∧
    0 < getNumberCorrespondences exampleState ∧
    getSigmaAngle exampleState 0 =
      Real.sqrt 2 * (0.8 * (kpAt exampleFrame (exampleState.camIndices.getD 0 0)
          (exampleState.keypointIndices.getD 0 0)).size / 12) ^ 2 /
        (camOf exampleFrame (exampleState.camIndices.getD 0 0)).focalLengthU ^ 2 := by
  have hcount : getNumberCorrespondences exampleState = 2 := by
    obtain ⟨hc, _, _⟩ := correspondence_count examplePts exampleMatch exampleRig
      exampleFrame exampleState exampleState_eval
    rw [hc]
    rw [acceptedCount]
    rw [show List.range exampleRig.length = [0] from rfl]
    rw [List.map_cons, List.map_nil, List.sum_cons, List.sum_nil]
    rw [show numKeypoints exampleFrame 0 = 2 from rfl]
    rw [show List.range 2 = [0, 1] from rfl]
    rw [List.filter_cons, List.filter_cons, List.filter_nil]
    have hacc : ∀ k : ℕ, acceptedPair examplePts exampleMatch exampleFrame.id 0 k = true := by
      intro k
      rw [acceptedPair]
      show (match some 1 with
        | none => false
        | some lmId =>
          if lmId = 0 then false
          else
            match examplePts lmId with
            | none => false
            | some hp => decide (¬ |hp 3| < 1e-8)) = true
      dsimp only [examplePts]
      rw [if_neg (by norm_num)]
      rw [show ((![0, 0, 0, 1] : Fin 4 → ℝ) 3) = 1 from rfl]
      rw [decide_eq_true_eq]
      norm_num
    rw [hacc 0, hacc 1]
    rfl
  exact ⟨exampleState_eval, by rw [hcount]; norm_num,
    sigma_angle_formula examplePts exampleMatch exampleRig exampleFrame
      exampleState exampleState_eval 0 (by rw [hcount]; norm_num)⟩

/-- C5: a keypoint that passed the landmark checks but whose
back-projection failed is still counted: its correspondence is stored with
the exact fallback bearing (1,0,0), and its dehomogenized point, angular
sigma, camera index and keypoint index are stored as for a successful
back-projection. -/
theorem backProjection_fallback (pts : ℕ → Option (Fin 4 → ℝ))
    (matchMap : ℕ × ℕ × ℕ → Option ℕ) (rig : List DistortionKind)
    (frame : MultiFrameData) (st : AdapterState)
    (h : constructAdapter pts matchMap rig frame = Except.ok st)
    (im k : ℕ) (him : im < rig.length) (hk : k < numKeypoints frame im)
    (lmId : ℕ) (hp : Fin 4 → ℝ)
    (hm : matchMap (frame.id, im, k) = some lmId) (h0 : lmId ≠ 0)
    (hpts : pts lmId = some hp) (hw : ¬ |hp 3| < 1e-8)
    (hbp : (kpAt frame im k).backProjection = none) :
    ∃ i, i < getNumberCorrespondences st ∧
      st.camIndices.getD i 0 = im ∧
      st.keypointIndices.getD i 0 = k ∧
      getBearingVector st i = ![1, 0, 0] ∧
      getPoint st i = (fun t : Fin 3 => hp t.castSucc / hp 3) ∧
      getSigmaAngle st i = Real.sqrt 2 * (0.8 * (kpAt frame im k).size / 12) *
        (0.8 * (kpAt frame im k).size / 12) /
        ((camOf frame im).focalLengthU * (camOf frame im).focalLengthU) := by
  obtain ⟨h1, h2, h3, h4, h5, h6, h7⟩ := constructAdapter_fields _ _ _ _ _ h
  have hrecmem : mkCorr (camOf frame im).focalLengthU im k (kpAt frame im k) hp ∈
      camRecords pts matchMap frame im := by
    have := kpRecords_complete pts matchMap frame.id (camOf frame im).focalLengthU im
      (camOf frame im).keypoints 0 k lmId hp
      (by simpa [numKeypoints] using hk) (by simpa using hm) h0 hpts hw
    simpa [camRecords, kpAt] using this
  have hall : mkCorr (camOf frame im).focalLengthU im k (kpAt frame im k) hp ∈
      allRecords pts matchMap rig frame := by
    rw [allRecords]
    refine List.mem_flatten.mpr ⟨camRecords pts matchMap frame im, ?_, hrecmem⟩
    exact List.mem_map.mpr ⟨im, List.mem_range.mpr him, rfl⟩
  obtain ⟨i, hi, hieq⟩ := List.mem_iff_getElem.mp hall
  have hcount : i < getNumberCorrespondences st := by
    rw [getNumberCorrespondences, h3, List.length_map]
    exact hi
  have hget : ∀ {α : Type} (f : CorrRecord → α) (d : α),
      ((allRecords pts matchMap rig frame).map f).getD i d =
        f (mkCorr (camOf frame im).focalLengthU im k (kpAt frame im k) hp) := by
    intro α f d
    rw [List.getD_eq_getElem _ _ (by simpa using hi), List.getElem_map, hieq]
  refine ⟨i, hcount, ?_, ?_, ?_, ?_, ?_⟩
  · rw [h6, hget]
    rfl
  · rw [h7, hget]
    rfl
  · rw [getBearingVector, h4, hget]
    show normalize3 ((kpAt frame im k).backProjection.getD ![1, 0, 0]) = _
    rw [hbp]
    exact normalize3_fallback
  · rw [getPoint, h3, hget]
    rfl
  · rw [getSigmaAngle, h5, hget]
    rfl

/-- Witness for C5 on the example inputs, at the second keypoint of
camera 0, whose back-projection fails. -/
theorem backProjection_fallback_witness :
    constructAdapter examplePts exampleMatch exampleRig exampleFrame =
      Except.ok exampleState ∧
    (kpAt exampleFrame 0 1).backProjection = none ∧
    (∃ i, i < getNumberCorrespondences exampleState ∧
      exampleState.camIndices.getD i 0 = 0 ∧
      exampleState.keypointIndices.getD i 0 = 1 ∧
      getBearingVector exampleState i = ![1, 0, 0] ∧
      getPoint exampleState i =
        (fun t : Fin 3 => (![0, 0, 0, 1] : Fin 4 → ℝ) t.castSucc /
          (![0, 0, 0, 1] : Fin 4 → ℝ) 3) ∧
      getSigmaAngle exampleState i = Real.sqrt 2 *
        (0.8 * (kpAt exampleFrame 0 1).size / 12) *
        (0.8 * (kpAt exampleFrame 0 1).size / 12) /
        ((camOf exampleFrame 0).focalLengthU * (camOf exampleFrame 0).focalLengthU)) := by
  refine ⟨exampleState_eval, rfl, ?_⟩
  refine backProjection_fallback examplePts exampleMatch exampleRig exampleFrame
    exampleState exampleState_eval 0 1 (by decide)
    (by rw [show numKeypoints exampleFrame 0 = 2 from rfl]; norm_num)
    1 ![0, 0, 0, 1] rfl (by decide) rfl ?_ rfl
  rw [show ((![0, 0, 0, 1] : Fin 4 → ℝ) 3) = 1 from rfl]
  norm_num

/-- C10 amended: in a successfully constructed adapter the five parallel
arrays share one length (the correspondence count), the frozen extrinsics
arrays have one entry per camera, every stored camera index is below the
camera count (so the extrinsics lookups of the accessors are in bounds),
and every stored bearing vector has unit norm provided every successful
back-projection of the frame is nonzero (a zero successful back-projection
is stored unchanged by Eigen's guarded normalize, see the counterexample). -/
theorem adapter_parallel_invariants (pts : ℕ → Option (Fin 4 → ℝ))
    (matchMap : ℕ × ℕ × ℕ → Option ℕ) (rig : List DistortionKind)
    (frame : MultiFrameData) (st : AdapterState)
    (h : constructAdapter pts matchMap rig frame = Except.ok st) :
    st.bearingVectors.length = getNumberCorrespondences st ∧
    st.sigmaAngles.length = getNumberCorrespondences st ∧
    st.camIndices.length = getNumberCorrespondences st ∧
    st.keypointIndices.length = getNumberCorrespondences st ∧
    st.camOffsets.length = rig.length ∧
    st.camRotations.length = rig.length ∧
    (∀ c ∈ st.camIndices, c < rig.length) ∧
    ((∀ im k b, (kpAt frame im k).backProjection = some b → sqNorm3 b ≠ 0) →
      ∀ v ∈ st.bearingVectors, sqNorm3 v = 1) := by
  obtain ⟨h1, h2, h3, h4, h5, h6, h7⟩ := constructAdapter_fields _ _ _ _ _ h
  have hlen : getNumberCorrespondences st = (allRecords pts matchMap rig frame).length := by
    rw [getNumberCorrespondences, h3, List.length_map]
  refine ⟨by rw [h4, List.length_map, hlen], by rw [h5, List.length_map, hlen],
    by rw [h6, List.length_map, hlen], by rw [h7, List.length_map, hlen],
    by rw [h1, List.length_map, List.length_range],
    by rw [h2, List.length_map, List.length_range], ?_, ?_⟩
  · intro c hc
    rw [h6] at hc
    obtain ⟨r, hr, rfl⟩ := List.mem_map.mp hc
    obtain ⟨i, hi, hieq⟩ := List.mem_iff_getElem.mp hr
    obtain ⟨im, j, lmId, hpv, him, hj, hm, h0, hpts, hw, hrec⟩ :=
      allRecords_getElem pts matchMap rig frame i hi
    rw [hieq] at hrec
    rw [hrec]
    exact him
  · intro hbp v hv
    rw [h4] at hv
    obtain ⟨r, hr, rfl⟩ := List.mem_map.mp hv
    obtain ⟨i, hi, hieq⟩ := List.mem_iff_getElem.mp hr
    obtain ⟨im, j, lmId, hpv, him, hj, hm, h0, hpts, hw, hrec⟩ :=
      allRecords_getElem pts matchMap rig frame i hi
    rw [hieq] at hrec
    rw [hrec]
    show sqNorm3 (normalize3 ((kpAt frame im j).backProjection.getD ![1, 0, 0])) = 1
    cases hb : (kpAt frame im j).backProjection with
    | none =>
      show sqNorm3 (normalize3 ![1, 0, 0]) = 1
      rw [normalize3_fallback]
      simp [sqNorm3]
    | some b =>
      show sqNorm3 (normalize3 b) = 1
      exact sqNorm3_normalize3 (hbp im j b hb)

/-- Witness for C10 (amended) on the example inputs, where every
successful back-projection is nonzero. -/
theorem adapter_parallel_invariants_witness :
    constructAdapter examplePts exampleMatch exampleRig exampleFrame =
      Except.ok exampleState ∧
    (∀ im k b, (kpAt exampleFrame im k).backProjection = some b → sqNorm3 b ≠ 0) ∧
    (exampleState.bearingVectors.length = getNumberCorrespondences exampleState ∧
      exampleState.sigmaAngles.length = getNumberCorrespondences exampleState ∧
      exampleState.camIndices.length = getNumberCorrespondences exampleState ∧
      exampleState.keypointIndices.length = getNumberCorrespondences exampleState ∧
      exampleState.camOffsets.length = exampleRig.length ∧
      exampleState.camRotations.length = exampleRig.length ∧
      (∀ c ∈ exampleState.camIndices, c < exampleRig.length) ∧
      ∀ v ∈ exampleState.bearingVectors, sqNorm3 v = 1) := by
  have hnz : ∀ im k b, (kpAt exampleFrame im k).backProjection = some b →
      sqNorm3 b ≠ 0 := by
    intro im k b hb
    rcases im with _ | im2
    · rcases k with _ | k2
      · have : b = ![0, 0, 1] := by
          have hb2 : some ![0, 0, 1] = some b := by
            rw [show (kpAt exampleFrame 0 0).backProjection = some ![0, 0, 1] from rfl]
              at hb
            rw [hb]
          exact (Option.some.inj hb2).symm
        rw [this]
        rw [show sqNorm3 ![0, 0, 1] = 1 by simp [sqNorm3]]
        norm_num
      · rcases k2 with _ | k3
        · rw [show (kpAt exampleFrame 0 1).backProjection = none from rfl] at hb
          exact Option.noConfusion hb
        · rw [show (kpAt exampleFrame 0 (k3 + 2)).backProjection = none from rfl] at hb
          exact Option.noConfusion hb
    · rw [show (kpAt exampleFrame (im2 + 1) k).backProjection = none from rfl] at hb
      exact Option.noConfusion hb
  obtain ⟨g1, g2, g3, g4, g5, g6, g7, g8⟩ := adapter_parallel_invariants examplePts
    exampleMatch exampleRig exampleFrame exampleState exampleState_eval
  exact ⟨exampleState_eval, hnz, g1, g2, g3, g4, g5, g6, g7, g8 hnz⟩

/-- C10 counterexample: a frame whose only keypoint back-projects
successfully to the zero vector yields a constructed adapter whose single
stored bearing vector is the zero vector, which does not have unit norm:
Eigen's normalize leaves a zero vector unchanged. -/
theorem bearing_not_unit_counterexample :
    constructAdapter examplePts exampleMatch exampleRig zeroBearingFrame =
      Except.ok zeroBearingState ∧
    getNumberCorrespondences zeroBearingState = 1 ∧
    getBearingVector zeroBearingState 0 = ![0, 0, 0] ∧
    sqNorm3 (getBearingVector zeroBearingState 0) ≠ 1 := by
  have hrec : camRecords examplePts exampleMatch zeroBearingFrame 0 =
      [mkCorr 2 0 0 ⟨1, some ![0, 0, 0]⟩ ![0, 0, 0, 1]] := by
    rw [camRecords]
    rw [show (camOf zeroBearingFrame 0).keypoints = [⟨1, some ![0, 0, 0]⟩] from rfl]
    rw [show (camOf zeroBearingFrame 0).focalLengthU = 2 from rfl]
    simp only [kpRecords]
    rw [show exampleMatch (zeroBearingFrame.id, 0, 0) = some 1 from rfl]
    dsimp only
    rw [if_neg (by norm_num)]
    rw [show examplePts 1 = some ![0, 0, 0, 1] from rfl]
    dsimp only
    rw [if_neg (by
      rw [show ((![0, 0, 0, 1] : Fin 4 → ℝ) 3) = 1 from rfl]
      norm_num)]
    simp
  have hnorm : normalize3 ![0, 0, 0] = ![0, 0, 0] := by
    rw [normalize3, if_neg]
    rw [show sqNorm3 ![0, 0, 0] = 0 by simp [sqNorm3]]
    exact lt_irrefl 0
  have hbear : zeroBearingState.bearingVectors = [![0, 0, 0]] := by
    show ([] : List (Fin 3 → ℝ)) ++
      (([0].map (camRecords examplePts exampleMatch zeroBearingFrame)).flatten.map
        CorrRecord.bearing) = _
    rw [List.map_cons, List.map_nil, hrec]
    simp only [List.flatten_cons, List.flatten_nil, List.append_nil, List.nil_append,
      List.map_cons, List.map_nil]
    rw [show (mkCorr 2 0 0 ⟨1, some ![0, 0, 0]⟩ ![0, 0, 0, 1]).bearing =
      normalize3 ![0, 0, 0] from rfl]
    rw [hnorm]
  have hpts2 : zeroBearingState.points =
      [(mkCorr 2 0 0 ⟨1, some ![0, 0, 0]⟩ ![0, 0, 0, 1]).point] := by
    show ([] : List (Fin 3 → ℝ)) ++
      (([0].map (camRecords examplePts exampleMatch zeroBearingFrame)).flatten.map
        CorrRecord.point) = _
    rw [List.map_cons, List.map_nil, hrec]
    simp only [List.flatten_cons, List.flatten_nil, List.append_nil, List.nil_append,
      List.map_cons, List.map_nil]
  have hbv : getBearingVector zeroBearingState 0 = ![0, 0, 0] := by
    rw [getBearingVector, hbear]
    rfl
  refine ⟨zeroBearingState_eval, ?_, hbv, ?_⟩
  · rw [getNumberCorrespondences, hpts2]
    rfl
  · rw [hbv]
    rw [show sqNorm3 ![0, 0, 0] = 0 by simp [sqNorm3]]
    norm_num

/-! ## Theorems: session container. -/

/-- C8: Component load is atomic: for every persisted location and
container, either the load reports success and the container is fully
replaced by the four decoded parts of the persisted state, or it reports
failure and the container is exactly as it was before the call; there is
no partially-applied outcome. -/
theorem component_load_atomic {α β γ δ : Type} (blob : PersistedComponent α β γ δ)
    (st : ComponentState α β γ δ) :
    ((Component.load blob st).1 = true ∧
      ∃ a b c d, blob.imuParameters = some a ∧ blob.nCameraSystem = some b ∧
        blob.graph = some c ∧ blob.multiFrames = some d ∧
        (Component.load blob st).2 = ⟨a, b, c, d⟩) ∨
    ((Component.load blob st).1 = false ∧ (Component.load blob st).2 = st) := by
  rcases blob with ⟨ia, ca, ga, fa⟩
  rcases ia with _ | a <;> rcases ca with _ | b <;> rcases ga with _ | c <;>
    rcases fa with _ | d <;>
    first
      | (right; exact ⟨rfl, rfl⟩)
      | (left; exact ⟨rfl, a, b, c, d, rfl, rfl, rfl, rfl, rfl⟩)

end Okvis
